import Mathlib

/-!
Shallow embedding of the task-loop core of `yosys_mau`
(`src/yosys_mau/task_loop/_task.py` and `src/yosys_mau/task_loop/context.py`).

Tasks are identified by natural numbers.  A `World` carries the per-task
state (an association list), the queue of callbacks deferred with
`asyncio.get_event_loop().call_soon`, and the trace of `TaskStateChange`
events emitted by `Task.__change_state`.  Each private method of `Task`
that mutates task state is translated into a function `World → ... → World`;
the cooperative scheduler is modelled by a step relation over worlds.
-/

namespace Mau

abbrev TaskId := Nat

/-- The task lifecycle states (`TaskState` in `_task.py`). -/
inductive TaskState
  | preparing
  | pending
  | running
  | waiting
  | done
  | cancelled
  | discarded
  | failed
deriving DecidableEq, Repr

/-- `Task.is_finished`: the task reached one of the terminal states. -/
def TaskState.isFinished : TaskState → Bool
  | .done => true
  | .cancelled => true
  | .discarded => true
  | .failed => true
  | _ => false

/-- Exceptions that can travel through the task loop.  `userExc` stands for an
arbitrary exception raised by user code; the wrapped variants mirror the
exception classes of `_task.py` (`DependencyFailed` and `ChildFailed` chain
the original exception as `__cause__`, the cancelled variants do not). -/
inductive Exc
  | cancelledError
  | userExc (code : Nat)
  | dependencyFailed (task : TaskId) (cause : Exc)
  | dependencyCancelled (task : TaskId)
  | childFailed (task : TaskId) (cause : Exc)
  | childCancelled (task : TaskId)
deriving DecidableEq, Repr

/-- `isinstance(exc, asyncio.CancelledError)`: `TaskCancelled` (and hence
`DependencyCancelled` and `ChildCancelled`) subclasses `asyncio.CancelledError`. -/
def Exc.isCancelled : Exc → Bool
  | .cancelledError => true
  | .dependencyCancelled _ => true
  | .childCancelled _ => true
  | _ => false

/-- State of an `asyncio.Future` used as a one-shot gate (`Task.__started`,
`Task.__finished`). -/
inductive Gate
  | pending
  | result
  | exception (e : Exc)
  | cancelled
deriving DecidableEq, Repr

/-- `Future.done()`. -/
def Gate.done : Gate → Bool
  | .pending => false
  | _ => true

/-- `Future.exception()` as used in `Task.__propagate_failure`: a cancelled
future raises `CancelledError` (which the caller catches and uses as the
exception), a successful future yields `None`. -/
def Gate.exceptionOf : Gate → Option Exc
  | .pending => none
  | .result => none
  | .exception e => some e
  | .cancelled => some .cancelledError

/-- The per-task state of `Task.__init__`.  `StableSet`s and dicts keyed by
tasks become lists of task ids; the two background-handle sets are modelled
by the number of live asyncio tasks they contain; error handlers are keyed by
`Task | None` and carry an opaque handler identifier. -/
structure TaskData where
  parent : Option TaskId
  children : List TaskId
  pendingDependencies : List TaskId
  pendingChildren : List TaskId
  reverseDependencies : List TaskId
  errorHandlers : List (Option TaskId × Nat)
  state : TaskState
  started : Gate
  finished : Gate
  useLease : Bool
  hasLease : Bool
  cancelledBy : Option TaskId
  discard : Bool
  cleanedUp : Bool
  waitBackgroundTasks : Nat
  backgroundTasks : Nat
  mainTaskCancelRequested : Bool
deriving DecidableEq, Repr

/-- A fresh task in state `preparing`, as set up by `Task.__init__`. -/
def TaskData.init (parent : Option TaskId) : TaskData where
  parent := parent
  children := []
  pendingDependencies := []
  pendingChildren := []
  reverseDependencies := []
  errorHandlers := []
  state := .preparing
  started := .pending
  finished := .pending
  useLease := false
  hasLease := false
  cancelledBy := none
  discard := true
  cleanedUp := false
  waitBackgroundTasks := 0
  backgroundTasks := 0
  mainTaskCancelRequested := false

/-- A `TaskStateChange` event as recorded on the trace. -/
structure StateChangeEvent where
  task : TaskId
  previousState : Option TaskState
  state : TaskState
deriving DecidableEq, Repr

/-- Callbacks deferred with `call_soon`. -/
inductive Deferred
  | discardVia (t : TaskId) (source : TaskId)
  | cancelDiscard (t : TaskId)
deriving DecidableEq, Repr

structure World where
  tasks : List (TaskId × TaskData)
  deferred : List Deferred
  trace : List StateChangeEvent
deriving DecidableEq, Repr

/-- Association-list lookup (first match wins, like a Python dict with
unique keys). -/
def alookup {κ α : Type} [DecidableEq κ] : List (κ × α) → κ → Option α
  | [], _ => none
  | (k, v) :: rest, t => if k = t then some v else alookup rest t

/-- Apply `f` to the value stored under key `t`. -/
def amap {κ α : Type} [DecidableEq κ] (t : κ) (f : α → α) : List (κ × α) → List (κ × α)
  | [] => []
  | (k, v) :: rest => (k, if k = t then f v else v) :: amap t f rest

/-- Insert or replace the binding of key `t` (Python dict assignment). -/
def aset {κ α : Type} [DecidableEq κ] (l : List (κ × α)) (t : κ) (v : α) : List (κ × α) :=
  if (alookup l t).isSome then amap t (fun _ => v) l else (t, v) :: l

def lookupTask (w : World) (t : TaskId) : Option TaskData :=
  alookup w.tasks t

def updateTask (w : World) (t : TaskId) (f : TaskData → TaskData) : World :=
  { w with tasks := amap t f w.tasks }

/-- `Task.__change_state`: no-op when the state is unchanged; otherwise update
the state and, when the task has a parent (`if self.__parent:`), emit a
`TaskStateChange(old_state, new_state)` event. -/
def changeState (w : World) (t : TaskId) (newState : TaskState) : World :=
  match lookupTask w t with
  | none => w
  | some td =>
    if td.state = newState then w
    else
      let w := updateTask w t fun td => { td with state := newState }
      if td.parent.isSome then
        { w with trace := w.trace ++ [⟨t, some td.state, newState⟩] }
      else w

/-- `Task.__cancel(discard)`: no-op on a finished task; otherwise cancel the
in-flight driver, drop the lease, cancel both gates if still pending, move to
`discarded`/`cancelled`, recurse into all children with the same `discard`
flag, and run the `on_cancel` hook (a no-op in the base class).  The fuel
bounds the recursion depth; the Python recursion runs over the finite task
tree. -/
def cancelGates (td : TaskData) : TaskData :=
  { td with
    mainTaskCancelRequested := true
    hasLease := false
    started := if td.started.done then td.started else .cancelled
    finished := if td.finished.done then td.finished else .cancelled }

def privCancel : Nat → World → TaskId → Bool → World
  | 0, w, _, _ => w
  | fuel + 1, w, t, discard =>
    match lookupTask w t with
    | none => w
    | some td =>
      if td.state.isFinished then w
      else
        let w := updateTask w t cancelGates
        let w := changeState w t (if discard then .discarded else .cancelled)
        td.children.foldl (fun w c => privCancel fuel w c discard) w

/-- `Task.cancel`: `self.__cancelled_by = current_task()` followed by
`self.__cancel(discard=False)`.  `current_task()` raises `TaskLoopError`
when no task is active, *before* the assignment, so in that case the world
is returned unchanged together with the error. -/
inductive TaskLoopErr
  | noTaskActive
deriving DecidableEq, Repr

def cancelTask (fuel : Nat) (w : World) (t : TaskId) (currentTask : Option TaskId) :
    World × Option TaskLoopErr :=
  match currentTask with
  | none => (w, some .noTaskActive)
  | some c =>
    let w := updateTask w t fun td => { td with cancelledBy := some c }
    (privCancel fuel w t false, none)

/-- `Task.__discard_via(task)`: ignore when the *source* task was explicitly
cancelled by this task (`if task.__cancelled_by is self: return`), otherwise
`self.__cancel(discard=True)`. -/
def discardVia (fuel : Nat) (w : World) (t : TaskId) (source : TaskId) : World :=
  match lookupTask w source with
  | none => w
  | some sd =>
    if sd.cancelledBy = some t then w
    else privCancel fuel w t true

/-- `Task.__failed(exc)`: no-op when `exc is None` or the task is finished;
otherwise drop the lease, resolve both gates with the exception if still
pending, move to `failed`, and discard-cancel every child. -/
def failGates (e : Exc) (td : TaskData) : TaskData :=
  { td with
    hasLease := false
    started := if td.started.done then td.started else .exception e
    finished := if td.finished.done then td.finished else .exception e }

def failedFn (fuel : Nat) (w : World) (t : TaskId) (exc : Option Exc) : World :=
  match lookupTask w t with
  | none => w
  | some td =>
    match exc with
    | none => w
    | some e =>
      if td.state.isFinished then w
      else
        let w := updateTask w t (failGates e)
        let w := changeState w t .failed
        td.children.foldl (fun w c => privCancel fuel w c true) w

/-- `Task.__check_start`: only in `pending`; while dependencies are pending
the lease is dropped; with `use_lease` a lease is requested and, when it is
not yet ready (`leaseReady` is the readiness of the job-server lease), a
ready-callback is registered and the start is retried later; otherwise the
started-gate is resolved. -/
def checkStart (w : World) (t : TaskId) (leaseReady : Bool) : World :=
  match lookupTask w t with
  | none => w
  | some td =>
    if td.state ≠ .pending then w
    else if td.pendingDependencies ≠ [] then
      updateTask w t fun td => { td with hasLease := false }
    else
      let w :=
        if td.useLease ∧ ¬td.hasLease then
          updateTask w t fun td => { td with hasLease := true }
        else w
      if td.useLease ∧ ¬leaseReady then w
      else updateTask w t fun td => { td with started := .result }

/-- `Task.__cleanup`: runs at most once.  It detaches the callbacks this task
registered on pending children and dependencies, removes the task from each
pending dependency's reverse-dependency set and, for every dependency whose
reverse-dependency set drained and whose `discard` flag is set, defers
`lambda: task.__cancel(discard=True)` with `call_soon`.  That lambda closes
over the loop *variable* `task`; when the event loop later runs it, the
variable holds the final element of the iteration, so every deferred call
targets the last pending dependency.  Cancelling the background asyncio
tasks and the event cursors has no synchronous effect on the task fields
modelled here (the cancelled background wrappers run later, see
`bgFinish`). -/
def cleanupDepStep (t : TaskId) (acc : World × List TaskId) (dep : TaskId) :
    World × List TaskId :=
  let w := updateTask acc.1 dep fun dd =>
    { dd with reverseDependencies := dd.reverseDependencies.erase t }
  match lookupTask w dep with
  | none => (w, acc.2)
  | some dd =>
    if dd.reverseDependencies = [] ∧ dd.discard then (w, acc.2 ++ [dep])
    else (w, acc.2)

def cleanup (w : World) (t : TaskId) : World :=
  match lookupTask w t with
  | none => w
  | some td =>
    if td.cleanedUp then w
    else
      let w := updateTask w t fun td => { td with cleanedUp := true }
      let w := updateTask w t fun td => { td with pendingChildren := [] }
      let res := td.pendingDependencies.foldl (cleanupDepStep t) (w, [])
      let w := res.1
      let lastVar := td.pendingDependencies.getLast?.getD 0
      let w :=
        { w with deferred := w.deferred ++ res.2.map (fun _ => Deferred.cancelDiscard lastVar) }
      updateTask w t fun td => { td with pendingDependencies := [] }

/-- `Task.__check_finish`: only in `waiting`, with no pending children and no
must-drain background handles; then cleanup runs and the finished-gate is
resolved with success. -/
def checkFinish (w : World) (t : TaskId) : World :=
  match lookupTask w t with
  | none => w
  | some td =>
    if td.state ≠ .waiting then w
    else if td.pendingChildren ≠ [] then w
    else if td.waitBackgroundTasks ≠ 0 then w
    else
      let w := cleanup w t
      updateTask w t fun td => { td with finished := .result }

/-- `Task.background(target, wait, error_handler)`: the assertion rejects a
non-error-handler on a task that is not `running`/`waiting` (raising before
any mutation); an error handler installed on a finished task is not tracked
(`wait` is forced off and the asyncio task is not added to either set);
otherwise the handle is added to the must-drain or the fire-and-forget set. -/
def background (w : World) (t : TaskId) (wait errorHandler : Bool) : World :=
  match lookupTask w t with
  | none => w
  | some td =>
    if ¬(errorHandler ∨ td.state = .running ∨ td.state = .waiting) then w
    else if errorHandler ∧ td.state.isFinished then w
    else if wait then
      updateTask w t fun td => { td with waitBackgroundTasks := td.waitBackgroundTasks + 1 }
    else
      updateTask w t fun td => { td with backgroundTasks := td.backgroundTasks + 1 }

/-- The `finally` clause of the wrapper coroutine in `Task.background`: a
finishing must-drain handle removes itself and re-checks the finish
condition; a fire-and-forget handle just removes itself. -/
def bgFinish (w : World) (t : TaskId) (wait : Bool) : World :=
  match lookupTask w t with
  | none => w
  | some _ =>
    if wait then
      let w := updateTask w t fun td =>
        { td with waitBackgroundTasks := td.waitBackgroundTasks - 1 }
      checkFinish w t
    else
      updateTask w t fun td => { td with backgroundTasks := td.backgroundTasks - 1 }

/-- The two wrap constructors passed to `Task.__propagate_failure` by
`__dependency_finished` and `__child_finished`. -/
inductive WrapKind
  | noWrap
  | dep
  | child
deriving DecidableEq, Repr

/-- Wrapping of the outcome exception: cancellations become
`DependencyCancelled(task)` / `ChildCancelled(task)`, failures become
`DependencyFailed(task)` / `ChildFailed(task)` chaining the original
exception as cause. -/
def wrapExc : WrapKind → TaskId → Exc → Exc
  | .noWrap, _, e => e
  | .dep, s, e => if e.isCancelled then .dependencyCancelled s else .dependencyFailed s e
  | .child, s, e => if e.isCancelled then .childCancelled s else .childFailed s e

/-- The decision taken by `Task.__propagate_failure` once the (possibly
wrapped) exception is known: run the handler keyed by the source task, else
the wildcard (`None`-keyed) handler — in both cases via
`background(wait=True, error_handler=True)` —, else defer a discard for a
cancellation, else fail the observer. -/
inductive PropagateDecision
  | nothing
  | runHandler (key : Option TaskId) (handler : Nat) (exc : Exc)
  | deferDiscard (source : TaskId)
  | fail (exc : Exc)
deriving DecidableEq, Repr

def propagateDecision (handlers : List (Option TaskId × Nat)) (source : TaskId)
    (exc : Option Exc) (wrap : WrapKind) : PropagateDecision :=
  match exc with
  | none => .nothing
  | some e0 =>
    let e := wrapExc wrap source e0
    match handlers.lookup (some source) with
    | some h => .runHandler (some source) h e
    | none =>
      match handlers.lookup none with
      | some h => .runHandler none h e
      | none =>
        if e.isCancelled then .deferDiscard source
        else .fail e

/-- `Task.__propagate_failure(task, exception, wrap=...)`: when no exception
is passed explicitly, it is read off the source task's finished-gate
(`None` on success ends the propagation); then the decision above is applied
to the world. -/
def propagateFailure (fuel : Nat) (w : World) (t : TaskId) (source : TaskId)
    (excArg : Option Exc) (wrap : WrapKind) : World :=
  match lookupTask w t with
  | none => w
  | some td =>
    let exc :=
      match excArg with
      | some e => some e
      | none =>
        match lookupTask w source with
        | none => none
        | some sd => sd.finished.exceptionOf
    match propagateDecision td.errorHandlers source exc wrap with
    | .nothing => w
    | .runHandler _ _ _ => background w t true true
    | .deferDiscard s => { w with deferred := w.deferred ++ [.discardVia t s] }
    | .fail e => failedFn fuel w t (some e)

/-- `Task.__dependency_finished(task)`: drop the dependency from the pending
set, propagate its outcome with the dependency wrappers, and re-check the
start condition. -/
def dependencyFinished (fuel : Nat) (w : World) (t : TaskId) (dep : TaskId)
    (leaseReady : Bool) : World :=
  match lookupTask w t with
  | none => w
  | some _ =>
    let w := updateTask w t fun td =>
      { td with pendingDependencies := td.pendingDependencies.erase dep }
    let w := propagateFailure fuel w t dep none .dep
    checkStart w t leaseReady

/-- `Task.__child_finished(task)`: drop the child from the pending set,
propagate its outcome with the child wrappers, and re-check the finish
condition. -/
def childFinished (fuel : Nat) (w : World) (t : TaskId) (child : TaskId) : World :=
  match lookupTask w t with
  | none => w
  | some _ =>
    let w := updateTask w t fun td =>
      { td with pendingChildren := td.pendingChildren.erase child }
    let w := propagateFailure fuel w t child none .child
    checkFinish w t

/-- Run the oldest callback deferred with `call_soon` (FIFO). -/
def runDeferred (fuel : Nat) (w : World) : World :=
  match w.deferred with
  | [] => w
  | d :: rest =>
    let w := { w with deferred := rest }
    match d with
    | .discardVia t s => discardVia fuel w t s
    | .cancelDiscard t => privCancel fuel w t true

/-- `Task.__task_main` start: `TaskStateChange(None, self.__state).emit()`,
the announcement of the initial state (not a state transition). -/
def driverInit (w : World) (t : TaskId) : World :=
  match lookupTask w t with
  | none => w
  | some td => { w with trace := w.trace ++ [⟨t, none, td.state⟩] }

/-- `Task.__task_main` after `on_prepare` returned: move to `pending` and
check the start condition. -/
def driverPrepared (w : World) (t : TaskId) (leaseReady : Bool) : World :=
  checkStart (changeState w t .pending) t leaseReady

/-- `Task.__task_main` resuming after `await self.started` succeeded. -/
def driverStarted (w : World) (t : TaskId) : World :=
  changeState w t .running

/-- `Task.__task_main` after `on_run` returned: drop the lease, move to
`waiting`, and check the finish condition. -/
def driverRan (w : World) (t : TaskId) : World :=
  let w := updateTask w t fun td => { td with hasLease := false }
  checkFinish (changeState w t .waiting) t

/-- `Task.__task_main` resuming after `await self.finished` succeeded. -/
def driverFinished (w : World) (t : TaskId) : World :=
  changeState w t .done

/-- One scheduler step of the task loop.  Each constructor is one of the
synchronous mutations of `_task.py`, with the enabling condition under
which the runtime invokes it:

* the driver coroutine `__task_main` advances a task through its states;
* `__check_start` is invoked by `__dependency_finished`, by the driver, and
  by the lease ready-callback;
* `__check_finish`, `__propagate_failure` and `background` are invoked only
  via callbacks that `__cleanup` detaches, or by the task's own code before
  it finished, hence not after cleanup;
* `__cleanup` also runs from the driver's `finally` clause, which is reached
  once the task is in a terminal state;
* the `finally` clause of a must-drain background wrapper runs while the
  wrapper is still accounted for in `__aio_wait_background_tasks`;
* `__dependency_finished` and `__child_finished` are the sequences
  pop-dependency / pop-child, then `propagate`, then `checkStart` /
  `checkFinish`;
* `call_soon` callbacks run later, in FIFO order (`runDeferred`). -/
inductive Step : World → World → Prop
  | driverInit (w : World) (t : TaskId) : Step w (driverInit w t)
  | driverPrepared (w : World) (t : TaskId) (leaseReady : Bool) (td : TaskData)
      (hlk : lookupTask w t = some td) (h : td.state = .preparing) :
      Step w (driverPrepared w t leaseReady)
  | driverStarted (w : World) (t : TaskId) (td : TaskData)
      (hlk : lookupTask w t = some td) (h : td.state = .pending)
      (hg : td.started = .result) :
      Step w (driverStarted w t)
  | driverRan (w : World) (t : TaskId) (td : TaskData)
      (hlk : lookupTask w t = some td) (h : td.state = .running) :
      Step w (driverRan w t)
  | driverFinished (w : World) (t : TaskId) (td : TaskData)
      (hlk : lookupTask w t = some td) (h : td.state = .waiting)
      (hg : td.finished = .result) :
      Step w (driverFinished w t)
  | checkStart (w : World) (t : TaskId) (leaseReady : Bool) :
      Step w (checkStart w t leaseReady)
  | checkFinish (w : World) (t : TaskId) (td : TaskData)
      (hlk : lookupTask w t = some td) (h : td.cleanedUp = false) :
      Step w (checkFinish w t)
  | cleanup (w : World) (t : TaskId) (td : TaskData)
      (hlk : lookupTask w t = some td) (h : td.state.isFinished = true) :
      Step w (cleanup w t)
  | failed (fuel : Nat) (w : World) (t : TaskId) (exc : Option Exc) :
      Step w (failedFn fuel w t exc)
  | cancel (fuel : Nat) (w : World) (t : TaskId) (cur : Option TaskId) :
      Step w (cancelTask fuel w t cur).1
  | privCancel (fuel : Nat) (w : World) (t : TaskId) (discard : Bool) :
      Step w (privCancel fuel w t discard)
  | discardVia (fuel : Nat) (w : World) (t : TaskId) (source : TaskId) :
      Step w (discardVia fuel w t source)
  | background (w : World) (t : TaskId) (wait errorHandler : Bool) (td : TaskData)
      (hlk : lookupTask w t = some td) (h : td.cleanedUp = false) :
      Step w (background w t wait errorHandler)
  | bgFinish (w : World) (t : TaskId) (wait : Bool) (td : TaskData)
      (hlk : lookupTask w t = some td)
      (h : wait = true → 0 < td.waitBackgroundTasks) :
      Step w (bgFinish w t wait)
  | propagate (fuel : Nat) (w : World) (t : TaskId) (source : TaskId)
      (excArg : Option Exc) (wrap : WrapKind) (td : TaskData)
      (hlk : lookupTask w t = some td) (h : td.cleanedUp = false) :
      Step w (propagateFailure fuel w t source excArg wrap)
  | popDependency (w : World) (t : TaskId) (dep : TaskId) :
      Step w (updateTask w t fun td =>
        { td with pendingDependencies := td.pendingDependencies.erase dep })
  | popChild (w : World) (t : TaskId) (child : TaskId) :
      Step w (updateTask w t fun td =>
        { td with pendingChildren := td.pendingChildren.erase child })
  | runDeferred (fuel : Nat) (w : World) : Step w (runDeferred fuel w)

/-- The per-task invariant behind claim C1.  In order: the finished-gate
only resolves after the started-gate; no finished-gate before `waiting`;
a resolved finished-gate in `waiting` means cleanup already ran (the window
inside `__check_finish` between cleanup and the driver resuming); after
cleanup a task still `waiting` has no must-drain handles left; cleanup only
happens from `waiting` on (via `__check_finish`) or terminal states (via the
driver's `finally`); a task that reached `running` has a resolved
started-gate. -/
def TaskInvP (td : TaskData) : Prop :=
  (td.finished.done = true → td.started.done = true)
  ∧ ((td.state = .preparing ∨ td.state = .pending ∨ td.state = .running) →
      td.finished.done = false)
  ∧ (td.state = .waiting → td.finished.done = true → td.cleanedUp = true)
  ∧ (td.cleanedUp = true → td.state = .waiting → td.waitBackgroundTasks = 0)
  ∧ (td.cleanedUp = true → td.state = .waiting ∨ td.state.isFinished = true)
  ∧ ((td.state = .running ∨ td.state = .waiting ∨ td.state = .done) →
      td.started.done = true)

instance (td : TaskData) : Decidable (TaskInvP td) := by
  unfold TaskInvP
  infer_instance

def WorldInv (w : World) : Prop :=
  ∀ t td, lookupTask w t = some td → TaskInvP td

/-- Once resolved, the finished-gate never changes. -/
def FinMono (w w₂ : World) : Prop :=
  ∀ t td td₂, lookupTask w t = some td → lookupTask w₂ t = some td₂ →
    td.finished.done = true → td₂.finished = td.finished

/-- When the finished-gate becomes resolved, the started-gate is resolved. -/
def NewFin (w w₂ : World) : Prop :=
  ∀ t td td₂, lookupTask w t = some td → lookupTask w₂ t = some td₂ →
    td.finished.done = false → td₂.finished.done = true → td₂.started.done = true

/-- A resolved started-gate stays resolved. -/
def StartMono (w w₂ : World) : Prop :=
  ∀ t td td₂, lookupTask w t = some td → lookupTask w₂ t = some td₂ →
    td.started.done = true → td₂.started.done = true

/-- No step creates or deletes tasks. -/
def DomEq (w w₂ : World) : Prop :=
  ∀ t, (lookupTask w₂ t).isSome = (lookupTask w t).isSome

/-- All the conclusions of one step, bundled. -/
def StepSafe (w w₂ : World) : Prop :=
  WorldInv w₂ ∧ FinMono w w₂ ∧ NewFin w w₂ ∧ StartMono w w₂ ∧ DomEq w w₂

/-- The fields of a task the invariant `TaskInvP` can observe. -/
def invCore (td : TaskData) : TaskState × Gate × Gate × Bool × Nat :=
  (td.state, td.started, td.finished, td.cleanedUp, td.waitBackgroundTasks)

/-- `__cause__` of the wrapped failure exceptions. -/
def Exc.cause : Exc → Option Exc
  | .dependencyFailed _ c => some c
  | .childFailed _ c => some c
  | _ => none

/-- A freshly constructed root task. -/
def rootOnlyWorld : World := ⟨[(0, TaskData.init none)], [], []⟩

/-- A freshly constructed child task (id 1) of a root task (id 0). -/
def parentedWorld : World := ⟨[(1, TaskData.init (some 0))], [], []⟩

/-- Task 0 running with a running child task 1. -/
def cancelPairWorld : World :=
  ⟨[(0, { TaskData.init none with state := .running, children := [1] }),
    (1, { TaskData.init (some 0) with state := .running })], [], []⟩

/-- Task 1 was explicitly cancelled by task 0 (which is still running);
the propagation of that cancellation defers a discard of 0 via source 1. -/
def discardPairWorld : World :=
  ⟨[(0, { TaskData.init none with state := .running }),
    (1, { TaskData.init (some 0) with
            state := .cancelled, started := .cancelled,
            finished := .cancelled, cancelledBy := some 0 })], [], []⟩

/-- Task 0 was cancelled while it still had two pending dependencies 1 and 2,
each with task 0 as its only reverse-dependency and `discard` set. -/
def cleanupTrioWorld : World :=
  ⟨[(0, { TaskData.init none with
            state := .cancelled, started := .cancelled, finished := .cancelled,
            pendingDependencies := [1, 2] }),
    (1, { TaskData.init none with state := .pending, reverseDependencies := [0] }),
    (2, { TaskData.init none with state := .pending, reverseDependencies := [0] })], [], []⟩

/-- Task 5 running with an error handler keyed by task 7 and a wildcard
handler. -/
def handlerBothWorld : World :=
  ⟨[(5, { TaskData.init none with
            state := .running, errorHandlers := [(some 7, 11), (none, 12)] })], [], []⟩

/-- Task 5 running with only a wildcard error handler. -/
def handlerWildcardWorld : World :=
  ⟨[(5, { TaskData.init none with
            state := .running, errorHandlers := [(none, 12)] })], [], []⟩

/-- A dependency chain: task 1 depends on task 0, task 2 depends on task 1;
no error handlers anywhere. -/
def failChainWorld : World :=
  ⟨[(0, { TaskData.init none with state := .running }),
    (1, { TaskData.init none with state := .pending, pendingDependencies := [0] }),
    (2, { TaskData.init none with state := .pending, pendingDependencies := [1] })], [], []⟩

/-- The event sequence of the dependency-failure scenario: A fails with E
(`__failed`), then B's `__dependency_finished(A)` callback fires on A's
finished-gate, then C's `__dependency_finished(B)` callback fires on B's. -/
def failCascade (fuel : Nat) (w : World) (A B C : TaskId) (E : Exc)
    (lr1 lr2 : Bool) : World :=
  dependencyFinished fuel
    (dependencyFinished fuel (failedFn fuel w A (some E)) B A lr1) C B lr2

end Mau

namespace Mau.Ctx

/-- Shallow embedding of `TaskContextDescriptor` (`context.py`): the
per-task override map (held weakly in the source, which does not affect
lookup semantics), the default value, and the parent links of the task
tree.  Values are modelled as naturals. -/
structure CtxWorld where
  parents : List (TaskId × TaskId)
  overrides : List (TaskId × Nat)
  default : Option Nat
deriving DecidableEq, Repr

/-- Result of `TaskContextDescriptor.__get__`: a value, or the
`AttributeError("... not set")`. -/
inductive CtxRead
  | val (v : Nat)
  | notSet
deriving DecidableEq, Repr

/-- The `while cursor is not None` walk of `__get__`: return the override of
the first task up the parent chain that has one.  The fuel bounds the walk;
the source walks the finite parent chain of the current task. -/
def ctxWalk (fuel : Nat) (w : CtxWorld) : Option TaskId → Option Nat
  | none => none
  | some t =>
    match fuel with
    | 0 => none
    | fuel + 1 =>
      match alookup w.overrides t with
      | some v => some v
      | none => ctxWalk fuel w (alookup w.parents t)

/-- `TaskContextDescriptor.__get__` with `cur` the current task (or `None`
outside the task loop). -/
def ctxGet (fuel : Nat) (w : CtxWorld) (cur : Option TaskId) : CtxRead :=
  match ctxWalk fuel w cur with
  | some v => .val v
  | none =>
    match w.default with
    | some v => .val v
    | none => .notSet

/-- `TaskContextDescriptor.__set__`: with no current task assign the
default, otherwise assign the current task's override. -/
def ctxSet (w : CtxWorld) (cur : Option TaskId) (v : Nat) : CtxWorld :=
  match cur with
  | none => { w with default := some v }
  | some t => { w with overrides := aset w.overrides t v }

/-- The ancestor chain of a task (itself first), written independently of
`ctxWalk` to state what "nearest ancestor" means. -/
def ancestorChain (fuel : Nat) (w : CtxWorld) : Option TaskId → List TaskId
  | none => []
  | some t =>
    match fuel with
    | 0 => []
    | fuel + 1 => t :: ancestorChain fuel w (alookup w.parents t)

end Mau.Ctx

namespace Mau.Events

open Mau

/-- An emitted `TaskEvent`: `mro` is `type(event).mro()` (the event's type
followed by its supertypes), `source` the task recorded at construction
time. -/
structure Ev where
  mro : List Nat
  payload : Nat
  source : TaskId
deriving DecidableEq, Repr

/-- One event cursor of `Task.__event_cursors`: the chain of already
resolved futures is the `log`, `closed` records that the current tail
future was cancelled by `__cleanup`. -/
structure CursorData where
  log : List Ev
  closed : Bool
deriving DecidableEq, Repr

structure EvWorld where
  parents : List (TaskId × TaskId)
  cursors : List ((TaskId × Nat) × CursorData)
deriving DecidableEq, Repr

/-- The `while current is not None` walk of `__emit_event__` (the source
task and its ancestors). -/
def taskChain (fuel : Nat) (w : EvWorld) : Option TaskId → List TaskId
  | none => []
  | some t =>
    match fuel with
    | 0 => []
    | fuel + 1 => t :: taskChain fuel w (alookup w.parents t)

/-- The inner loop of `__emit_event__` at one task: for every entry of
`type(event).mro()` that has a cursor, resolve the cursor future with the
event and a fresh tail (append to the log) and install the tail.  A
cancelled (closed) cursor future can no longer be resolved. -/
def emitStep (node : TaskId) (ev : Ev) (w : EvWorld) (ty : Nat) : EvWorld :=
  match alookup w.cursors (node, ty) with
  | none => w
  | some cd =>
    if cd.closed then w
    else { w with cursors := aset w.cursors (node, ty) { cd with log := cd.log ++ [ev] } }

def emitAt (w : EvWorld) (node : TaskId) (ev : Ev) : EvWorld :=
  ev.mro.foldl (emitStep node ev) w

/-- `TaskEvent.emit` / `Task.__emit_event__`: walk from the source up
through its ancestors, delivering to every registered cursor. -/
def emitEvent (fuel : Nat) (w : EvWorld) (ev : Ev) : EvWorld :=
  (taskChain fuel w (some ev.source)).foldl (fun w node => emitAt w node ev) w

/-- One `TaskEventStream.__anext__` call of a subscriber whose remaining
chain is `l`: skip events rejected by the `where` filter; at the end of the
chain, a cancelled cursor raises `StopAsyncIteration` (end of stream) and a
live one leaves the subscriber waiting. -/
inductive StreamNext
  | ev (e : Ev) (rest : List Ev)
  | endOfStream
  | waiting
deriving DecidableEq, Repr

def streamNext (closed : Bool) (wh : Ev → Bool) : List Ev → StreamNext
  | [] => if closed then .endOfStream else .waiting
  | e :: rest => if wh e then .ev e rest else streamNext closed wh rest

/-- The whole sequence of events `__anext__` yields to a subscriber from
the remaining chain `l` (repeatedly taking `streamNext`). -/
def streamYields (wh : Ev → Bool) : List Ev → List Ev
  | [] => []
  | e :: rest => if wh e then e :: streamYields wh rest else streamYields wh rest

/-- Task 1 is a child of task 0; task 0 has one cursor for event type 5
with an empty chain. -/
def evWitWorld : EvWorld := ⟨[(1, 0)], [((0, 5), ⟨[], false⟩)]⟩

/-- Two events of type 5 created by task 1. -/
def ev1def : Ev := ⟨[5], 1, 1⟩

def ev2def : Ev := ⟨[5], 2, 1⟩

end Mau.Events

namespace Mau

/-! ### Lookup lemmas for the association-list primitives -/

theorem alookup_amap {κ α : Type} [DecidableEq κ] (l : List (κ × α)) (t s : κ) (f : α → α) :
    alookup (amap t f l) s = if s = t then (alookup l s).map f else alookup l s := by
  induction l with
  | nil => simp [alookup, amap]
  | cons hd tl ih =>
    obtain ⟨k, v⟩ := hd
    by_cases hk : k = s
    · subst hk
      by_cases ht : k = t <;> simp [alookup, amap, ht, ih]
    · simp only [alookup, amap, if_neg hk]
      exact ih

theorem alookup_aset {κ α : Type} [DecidableEq κ] (l : List (κ × α)) (t s : κ) (v : α) :
    alookup (aset l t v) s = if s = t then some v else alookup l s := by
  unfold aset
  by_cases hsome : (alookup l t).isSome
  · rw [if_pos hsome, alookup_amap]
    by_cases hs : s = t
    · subst hs
      rw [if_pos rfl, if_pos rfl]
      cases h : alookup l s with
      | none => rw [h] at hsome; simp at hsome
      | some x => simp
    · rw [if_neg hs, if_neg hs]
  · rw [if_neg hsome]
    by_cases hs : s = t
    · subst hs; simp [alookup]
    · have hts : ¬ t = s := fun h => hs h.symm
      simp [alookup, hts, hs]

theorem lookup_updateTask (w : World) (t s : TaskId) (f : TaskData → TaskData) :
    lookupTask (updateTask w t f) s
      = if s = t then (lookupTask w s).map f else lookupTask w s := by
  simp only [lookupTask, updateTask, alookup_amap]

theorem lookupTask_withTrace (w : World) (x : List StateChangeEvent) (t : TaskId) :
    lookupTask { w with trace := x } t = lookupTask w t := rfl

theorem lookupTask_withDeferred (w : World) (x : List Deferred) (t : TaskId) :
    lookupTask { w with deferred := x } t = lookupTask w t := rfl

theorem updateTask_trace (w : World) (t : TaskId) (f : TaskData → TaskData) :
    (updateTask w t f).trace = w.trace := rfl

theorem updateTask_deferred (w : World) (t : TaskId) (f : TaskData → TaskData) :
    (updateTask w t f).deferred = w.deferred := rfl

/-! ### Lemmas about `changeState` -/

theorem lookup_changeState_self (w : World) (t : TaskId) (ns : TaskState) :
    lookupTask (changeState w t ns) t
      = (lookupTask w t).map
          (fun td => if td.state = ns then td else { td with state := ns }) := by
  unfold changeState
  cases h : lookupTask w t with
  | none => simp [h]
  | some td =>
    by_cases he : td.state = ns
    · simp [h, he]
    · by_cases hp : td.parent.isSome <;>
        simp [h, he, hp, lookupTask_withTrace, lookup_updateTask]

theorem lookup_changeState_ne (w : World) (t : TaskId) (ns : TaskState) (s : TaskId)
    (h : s ≠ t) :
    lookupTask (changeState w t ns) s = lookupTask w s := by
  unfold changeState
  cases hl : lookupTask w t with
  | none => rfl
  | some td =>
    by_cases he : td.state = ns
    · simp [he]
    · by_cases hp : td.parent.isSome <;>
        simp [he, hp, lookupTask_withTrace, lookup_updateTask, h]

theorem cancelGates_state (td : TaskData) : (cancelGates td).state = td.state := rfl

theorem failGates_state (e : Exc) (td : TaskData) : (failGates e td).state = td.state := rfl

theorem flavour_isFinished (d : Bool) :
    (if d then TaskState.discarded else TaskState.cancelled).isFinished = true := by
  cases d <;> rfl

/-- Looking up the modified task after the gate update and the state change
at the start of `__cancel` / `__failed`. -/
theorem lookup_update_changeState_self (w : World) (t : TaskId) (f : TaskData → TaskData)
    (ns : TaskState) (td : TaskData) (h : lookupTask w t = some td)
    (hstate : (f td).state = td.state) (hne : td.state ≠ ns) :
    lookupTask (changeState (updateTask w t f) t ns) t = some { f td with state := ns } := by
  rw [lookup_changeState_self, lookup_updateTask, if_pos rfl, h]
  simp [hstate, hne]

theorem lookup_update_changeState_ne (w : World) (t : TaskId) (f : TaskData → TaskData)
    (ns : TaskState) (s : TaskId) (h : s ≠ t) :
    lookupTask (changeState (updateTask w t f) t ns) s = lookupTask w s := by
  rw [lookup_changeState_ne _ _ _ _ h, lookup_updateTask, if_neg h]

/-! ### Lemmas about `privCancel` (`Task.__cancel`) -/

/-- `__cancel` is a no-op on a finished task. -/
theorem privCancel_noop_of_finished (fuel : Nat) (w : World) (t : TaskId) (d : Bool)
    (td : TaskData) (h : lookupTask w t = some td) (hfin : td.state.isFinished = true) :
    privCancel fuel w t d = w := by
  cases fuel with
  | zero => rfl
  | succ n => simp [privCancel, h, hfin]

/-- `__cancel` never touches a task that is already in a terminal state. -/
theorem privCancel_fixed_of_finished :
    ∀ (fuel : Nat) (w : World) (c : TaskId) (d : Bool) (s : TaskId) (sd : TaskData),
      lookupTask w s = some sd → sd.state.isFinished = true →
      lookupTask (privCancel fuel w c d) s = some sd := by
  intro fuel
  induction fuel with
  | zero => intro w c d s sd hs _; simpa [privCancel] using hs
  | succ n ih =>
    intro w c d s sd hs hfin
    cases hc : lookupTask w c with
    | none => simpa [privCancel, hc] using hs
    | some cd =>
      by_cases hcf : cd.state.isFinished = true
      · simpa [privCancel, hc, hcf] using hs
      · have hcf2 : cd.state.isFinished = false := by
          cases h2 : cd.state.isFinished
          · rfl
          · exact absurd h2 hcf
        have hcs : s ≠ c := by
          intro h2
          subst h2
          rw [hs] at hc
          injection hc with h3
          rw [h3] at hfin
          exact hcf hfin
        simp only [privCancel, hc, hcf2, Bool.false_eq_true, if_false]
        have hfold : ∀ (l : List TaskId) (w2 : World), lookupTask w2 s = some sd →
            lookupTask (l.foldl (fun w c => privCancel n w c d) w2) s = some sd := by
          intro l
          induction l with
          | nil => intro w2 h2; simpa using h2
          | cons hd tl ihl =>
            intro w2 h2
            rw [List.foldl_cons]
            exact ihl _ (ih w2 hd d s sd h2 hfin)
        apply hfold
        rw [lookup_update_changeState_ne _ _ _ _ _ hcs]
        exact hs

theorem privCancel_foldl_fixed_of_finished (fuel : Nat) (d : Bool) (s : TaskId)
    (sd : TaskData) :
    ∀ (l : List TaskId) (w : World), lookupTask w s = some sd →
      sd.state.isFinished = true →
      lookupTask (l.foldl (fun w c => privCancel fuel w c d) w) s = some sd := by
  intro l
  induction l with
  | nil => intro w h _; simpa using h
  | cons hd tl ihl =>
    intro w h hfin
    rw [List.foldl_cons]
    exact ihl _ (privCancel_fixed_of_finished fuel w hd d s sd h hfin) hfin

/-- `__cancel` does not create or delete tasks. -/
theorem privCancel_dom :
    ∀ (fuel : Nat) (w : World) (t : TaskId) (d : Bool) (s : TaskId),
      (lookupTask (privCancel fuel w t d) s).isSome = (lookupTask w s).isSome := by
  intro fuel
  induction fuel with
  | zero => intros; simp [privCancel]
  | succ n ih =>
    intro w t d s
    cases hc : lookupTask w t with
    | none => simp [privCancel, hc]
    | some td =>
      by_cases hcf : td.state.isFinished = true
      · simp [privCancel, hc, hcf]
      · have hcf2 : td.state.isFinished = false := by
          cases h2 : td.state.isFinished
          · rfl
          · exact absurd h2 hcf
        simp only [privCancel, hc, hcf2, Bool.false_eq_true, if_false]
        have hfold : ∀ (l : List TaskId) (w2 : World),
            (lookupTask w2 s).isSome = (lookupTask w s).isSome →
            (lookupTask (l.foldl (fun w c => privCancel n w c d) w2) s).isSome
              = (lookupTask w s).isSome := by
          intro l
          induction l with
          | nil => intro w2 h2; simpa using h2
          | cons hd tl ihl =>
            intro w2 h2
            rw [List.foldl_cons]
            exact ihl _ (by rw [ih]; exact h2)
        apply hfold
        by_cases hst : s = t
        · subst hst
          rw [lookup_changeState_self, lookup_updateTask, if_pos rfl]
          simp
        · rw [lookup_update_changeState_ne _ _ _ _ _ hst]

/-- `__cancel(discard)` changes a state only ever to the flavour selected by
`discard`. -/
theorem privCancel_state_bound :
    ∀ (fuel : Nat) (w : World) (t : TaskId) (d : Bool) (s : TaskId) (sd sd₂ : TaskData),
      lookupTask w s = some sd → lookupTask (privCancel fuel w t d) s = some sd₂ →
      sd₂.state = sd.state
        ∨ sd₂.state = (if d then TaskState.discarded else TaskState.cancelled) := by
  intro fuel
  induction fuel with
  | zero =>
    intro w t d s sd sd₂ h h2
    left
    simp only [privCancel] at h2
    rw [h] at h2
    injection h2 with h3
    rw [← h3]
  | succ n ih =>
    intro w t d s sd sd₂ h h2
    cases hc : lookupTask w t with
    | none =>
      left
      simp only [privCancel, hc] at h2
      rw [h] at h2
      injection h2 with h3
      rw [← h3]
    | some td =>
      by_cases hcf : td.state.isFinished = true
      · left
        simp only [privCancel, hc, hcf, if_true] at h2
        rw [h] at h2
        injection h2 with h3
        rw [← h3]
      · have hcf2 : td.state.isFinished = false := by
          cases h3 : td.state.isFinished
          · rfl
          · exact absurd h3 hcf
        simp only [privCancel, hc, hcf2, Bool.false_eq_true, if_false] at h2
        have hfold : ∀ (l : List TaskId) (w2 : World) (m : TaskData),
            lookupTask w2 s = some m →
            (m.state = sd.state
              ∨ m.state = (if d then TaskState.discarded else TaskState.cancelled)) →
            lookupTask (l.foldl (fun w c => privCancel n w c d) w2) s = some sd₂ →
            (sd₂.state = sd.state
              ∨ sd₂.state = (if d then TaskState.discarded else TaskState.cancelled)) := by
          intro l
          induction l with
          | nil =>
            intro w2 m hm hdisj hend
            rw [List.foldl_nil, hm] at hend
            injection hend with h3
            rw [← h3]
            exact hdisj
          | cons hd tl ihl =>
            intro w2 m hm hdisj hend
            rw [List.foldl_cons] at hend
            have hds : (lookupTask (privCancel n w2 hd d) s).isSome = true := by
              rw [privCancel_dom, hm]
              rfl
            obtain ⟨mid, hmid⟩ := Option.isSome_iff_exists.mp hds
            have hdisj2 := ih w2 hd d s m mid hm hmid
            refine ihl _ mid hmid ?_ hend
            rcases hdisj2 with h4 | h4
            · rw [h4]; exact hdisj
            · right; exact h4
        by_cases hst : s = t
        · subst hst
          rw [h] at hc
          injection hc with h3
          rw [h3] at h
          refine hfold td.children _ _
            (lookup_update_changeState_self w s cancelGates _ td h (cancelGates_state td) ?_)
            ?_ h2
          · intro h4
            rw [h4, flavour_isFinished] at hcf2
            exact Bool.noConfusion hcf2
          · right
            rfl
        · refine hfold td.children _ sd ?_ (Or.inl rfl) h2
          rw [lookup_update_changeState_ne _ _ _ _ _ hst]
          exact h

end Mau

namespace Mau

/-- `__cancel` on a live task moves it to the flavour selected by `discard`. -/
theorem privCancel_live_flavour (fuel : Nat) (w : World) (t : TaskId) (d : Bool)
    (td : TaskData) (h : lookupTask w t = some td) (hlive : td.state.isFinished = false)
    (hfuel : 0 < fuel) :
    (lookupTask (privCancel fuel w t d) t).map (fun td => td.state)
      = some (if d then TaskState.discarded else TaskState.cancelled) := by
  cases fuel with
  | zero => exact absurd hfuel (by simp)
  | succ n =>
    simp only [privCancel, h, hlive, Bool.false_eq_true, if_false]
    have hne : td.state ≠ (if d then TaskState.discarded else TaskState.cancelled) := by
      intro h4
      rw [h4, flavour_isFinished] at hlive
      exact Bool.noConfusion hlive
    have hmid := lookup_update_changeState_self w t cancelGates _ td h (cancelGates_state td) hne
    have hfin : ({ cancelGates td with
        state := (if d then TaskState.discarded else TaskState.cancelled) } : TaskData).state.isFinished
        = true := by
      simp [flavour_isFinished]
    rw [privCancel_foldl_fixed_of_finished n d t _ td.children _ hmid hfin]
    rfl

/-- C10: calling `cancel()` with no current task raises `TaskLoopError` from
`current_task()` before `cancelled_by` is assigned and before `__cancel`
runs, so the task — its state, its gates and its children included — and the
whole world are left unchanged. -/
theorem cancel_requires_current_task (fuel : Nat) (w : World) (t : TaskId) :
    cancelTask fuel w t none = (w, some TaskLoopErr.noTaskActive) := rfl

/-- C6 is refuted at a concrete input: the root task (no parent) emits no
`TaskStateChange` event for *any* of its transitions, not only for the very
first one.  Here the root's second transition `pending → running` emits
nothing, where the claim requires an event. -/
theorem root_second_transition_emits_nothing :
    (changeState (changeState rootOnlyWorld 0 .pending) 0 .running).trace = []
    ∧ (lookupTask (changeState rootOnlyWorld 0 .pending) 0).map (fun td => td.state)
        = some TaskState.pending
    ∧ TaskState.pending ≠ TaskState.running := by
  decide

/-- C6 amended: a state transition emits a `TaskStateChange` event carrying
the previous and the new state exactly when the transitioning task has a
parent; every transition of the parentless root emits no event. -/
theorem state_change_event_iff_parented (w : World) (t : TaskId) (ns : TaskState)
    (td : TaskData) (hlk : lookupTask w t = some td) (hne : td.state ≠ ns) :
    (changeState w t ns).trace
      = w.trace ++ (if td.parent.isSome then [⟨t, some td.state, ns⟩] else []) := by
  simp only [changeState, hlk]
  rw [if_neg hne]
  by_cases hp : td.parent.isSome <;> simp [hp, updateTask_trace]

/-- Witness for the amended C6 theorem at a concrete child task. -/
theorem state_change_event_iff_parented_witness :
    (changeState parentedWorld 1 .pending).trace
      = parentedWorld.trace ++ [⟨1, some TaskState.preparing, TaskState.pending⟩] := by
  have h := state_change_event_iff_parented parentedWorld 1 .pending (TaskData.init (some 0))
    (by decide) (by decide)
  simpa [TaskData.init] using h

/-- C5 is refuted at a concrete input: task 0's own `cancelled_by` is `None`
(so per the claim the deferred discard of task 0 via source task 1 must go
ahead and leave task 0 `discarded`), but the code checks the *source's*
attribute (`task.__cancelled_by is self`): task 1 was cancelled by task 0,
so the discard is a no-op and task 0 stays `running`. -/
theorem discard_via_wrong_side_counterexample :
    discardVia 2 discardPairWorld 0 1 = discardPairWorld
    ∧ (lookupTask discardPairWorld 0).map (fun td => td.cancelledBy) = some none
    ∧ (lookupTask discardPairWorld 0).map (fun td => td.state) = some TaskState.running
    ∧ (lookupTask (discardVia 2 discardPairWorld 0 1) 0).map (fun td => td.state)
        ≠ some TaskState.discarded := by
  decide

/-- C5 amended: the deferred discard of T via a source task S is a no-op
exactly when *S's* `cancelled_by` attribute is T (that is, T itself had
explicitly cancelled S) or T is already finished; otherwise T is cancelled
with the `discarded` flavour.  This prevents T's own explicit cancel of S
from bouncing back and discarding T. -/
theorem discard_via_guard (fuel : Nat) (w : World) (t s : TaskId) (td sd : TaskData)
    (hlt : lookupTask w t = some td) (hls : lookupTask w s = some sd) (hfuel : 0 < fuel) :
    (sd.cancelledBy = some t → discardVia fuel w t s = w)
    ∧ (sd.cancelledBy ≠ some t → td.state.isFinished = true → discardVia fuel w t s = w)
    ∧ (sd.cancelledBy ≠ some t → td.state.isFinished = false →
        (lookupTask (discardVia fuel w t s) t).map (fun td => td.state)
          = some TaskState.discarded) := by
  refine ⟨?_, ?_, ?_⟩
  · intro hcb
    simp [discardVia, hls, hcb]
  · intro hcb hfin
    simp only [discardVia, hls]
    rw [if_neg hcb]
    exact privCancel_noop_of_finished fuel w t true td hlt hfin
  · intro hcb hlive
    simp only [discardVia, hls]
    rw [if_neg hcb]
    have h := privCancel_live_flavour fuel w t true td hlt hlive hfuel
    simpa using h

/-- Witness for the amended C5 theorem: task 0 explicitly cancelled task 1,
so the discard of task 0 bounced back via source 1 is a no-op. -/
theorem discard_via_guard_witness :
    discardVia 2 discardPairWorld 0 1 = discardPairWorld ∧ (0 : Nat) < 2 := by
  have h := discard_via_guard 2 discardPairWorld 0 1
    ({ TaskData.init none with state := .running })
    ({ TaskData.init (some 0) with
        state := .cancelled, started := .cancelled,
        finished := .cancelled, cancelledBy := some 0 })
    (by decide) (by decide) (by decide)
  exact ⟨h.1 (by decide), by decide⟩

/-- C2 is refuted at a concrete input: `cancel()` recurses into the children
with the same `discard=False` flag, so the live child task 1 of the
cancelled task 0 ends in state `cancelled`, not `discarded` as the claim
requires. -/
theorem cancel_descendant_flavour_counterexample :
    (lookupTask (cancelTask 3 cancelPairWorld 0 (some 0)).1 1).map (fun td => td.state)
        = some TaskState.cancelled
    ∧ (lookupTask cancelPairWorld 1).map (fun td => td.state) = some TaskState.running
    ∧ TaskState.cancelled ≠ TaskState.discarded := by
  decide

/-- C2 amended: when `cancel()` is called on a non-terminal task T with a
current task set, T reaches the terminal state `cancelled`, and every task
whose state the recursive cancellation changes — in particular every live
descendant it reaches — also ends in `cancelled`, never in `discarded`,
because `__cancel` recurses into children with the same `discard=False`
flag. -/
theorem explicit_cancel_all_cancelled (fuel : Nat) (w : World) (t cur : TaskId)
    (td : TaskData) (hlk : lookupTask w t = some td)
    (hlive : td.state.isFinished = false) (hfuel : 0 < fuel) :
    ((lookupTask (cancelTask fuel w t (some cur)).1 t).map (fun td => td.state)
        = some TaskState.cancelled)
    ∧ (∀ s sd sd₂, lookupTask w s = some sd →
        lookupTask (cancelTask fuel w t (some cur)).1 s = some sd₂ →
        sd₂.state ≠ sd.state → sd₂.state = TaskState.cancelled) := by
  constructor
  · have h1 : lookupTask (updateTask w t fun td => { td with cancelledBy := some cur }) t
        = some { td with cancelledBy := some cur } := by
      rw [lookup_updateTask, if_pos rfl, hlk]
      rfl
    have h := privCancel_live_flavour fuel _ t false _ h1 (by simpa using hlive) hfuel
    simpa [cancelTask] using h
  · intro s sd sd₂ hs hs₂ hne
    simp only [cancelTask] at hs₂
    have hmid : ∃ m, lookupTask (updateTask w t fun td => { td with cancelledBy := some cur }) s
        = some m ∧ m.state = sd.state := by
      rw [lookup_updateTask]
      by_cases hst : s = t
      · rw [if_pos hst, hs]
        exact ⟨_, rfl, rfl⟩
      · rw [if_neg hst, hs]
        exact ⟨sd, rfl, rfl⟩
    obtain ⟨m, hm, hms⟩ := hmid
    have hbound := privCancel_state_bound fuel _ t false s m sd₂ hm hs₂
    rcases hbound with h4 | h4
    · rw [hms] at h4
      exact absurd h4 hne
    · simpa using h4

/-- Witness for the amended C2 theorem. -/
theorem explicit_cancel_all_cancelled_witness :
    ((lookupTask (cancelTask 3 cancelPairWorld 0 (some 0)).1 0).map (fun td => td.state)
        = some TaskState.cancelled)
    ∧ (0 : Nat) < 3 := by
  have h := explicit_cancel_all_cancelled 3 cancelPairWorld 0 0
    ({ TaskData.init none with state := .running, children := [1] })
    (by decide) (by decide) (by decide)
  exact ⟨h.1, by decide⟩

/-- C7: the claim states the specified behaviour, and the code deviates from
it.  In `cleanupTrioWorld` the cleanup of task 0 drains the
reverse-dependency sets of both pending dependencies 1 and 2, both of which
have `discard` set, so per the claim (and the docstring of `Task.discard`)
both must be scheduled for cancellation with the `discarded` flavour.  The
lambda deferred by `__cleanup` closes over the loop variable `task`, so by
the time the event loop runs the deferred calls both target the *last*
iterated dependency: task 2 is discarded (twice), task 1 — although drained
and discardable — stays `pending` forever. -/
theorem cleanup_late_binding_bug :
    ((cleanup cleanupTrioWorld 0).deferred
        = [Deferred.cancelDiscard 2, Deferred.cancelDiscard 2])
    ∧ ((lookupTask (runDeferred 3 (runDeferred 3 (cleanup cleanupTrioWorld 0))) 1).map
          (fun td => td.state) = some TaskState.pending)
    ∧ ((lookupTask (runDeferred 3 (runDeferred 3 (cleanup cleanupTrioWorld 0))) 2).map
          (fun td => td.state) = some TaskState.discarded)
    ∧ ((lookupTask (cleanup cleanupTrioWorld 0) 1).map (fun td => td.reverseDependencies)
        = some [])
    ∧ ((lookupTask cleanupTrioWorld 1).map (fun td => td.discard) = some true) := by
  decide

end Mau

namespace Mau

/-- Updates that keep state and gates intact keep the observable core of
every task. -/
theorem lookup_update_keeps_core (w : World) (t : TaskId) (f : TaskData → TaskData)
    (hf : ∀ td, (f td).state = td.state ∧ (f td).started = td.started
      ∧ (f td).finished = td.finished) (s : TaskId) :
    (lookupTask (updateTask w t f) s).map (fun td => (td.state, td.started, td.finished))
      = (lookupTask w s).map (fun td => (td.state, td.started, td.finished)) := by
  rw [lookup_updateTask]
  by_cases hst : s = t
  · rw [if_pos hst]
    cases h : lookupTask w s with
    | none => rfl
    | some td => simp [(hf td).1, (hf td).2.1, (hf td).2.2]
  · rw [if_neg hst]

/-- `Task.background` never touches the state or the gates of any task: it
only registers the handle. -/
theorem background_keeps_core (w : World) (t : TaskId) (wait errh : Bool) (s : TaskId) :
    (lookupTask (background w t wait errh) s).map (fun td => (td.state, td.started, td.finished))
      = (lookupTask w s).map (fun td => (td.state, td.started, td.finished)) := by
  unfold background
  cases h : lookupTask w t with
  | none => rfl
  | some td =>
    repeat' split
    all_goals first
      | rfl
      | (apply lookup_update_keeps_core
         intro x
         exact ⟨rfl, rfl, rfl⟩)

/-- C3: the propagator prefers the handler keyed by the source task over the
wildcard handler (even when both are registered), schedules it with
`background(wait=True, error_handler=True)` — a drain background handler —
and the observer does not abort: its state and gates are untouched.  With no
source-keyed handler, the wildcard handler is scheduled in exactly the same
way. -/
theorem propagate_handler_precedence (fuel : Nat) (w : World) (t source : TaskId)
    (e0 : Exc) (wrap : WrapKind) (td : TaskData) (hlk : lookupTask w t = some td) :
    (∀ h, td.errorHandlers.lookup (some source) = some h →
      propagateDecision td.errorHandlers source (some e0) wrap
          = .runHandler (some source) h (wrapExc wrap source e0)
        ∧ propagateFailure fuel w t source (some e0) wrap = background w t true true
        ∧ (lookupTask (propagateFailure fuel w t source (some e0) wrap) t).map
            (fun td => (td.state, td.started, td.finished))
            = some (td.state, td.started, td.finished))
    ∧ (∀ h, td.errorHandlers.lookup (some source) = none →
        td.errorHandlers.lookup none = some h →
        propagateDecision td.errorHandlers source (some e0) wrap
            = .runHandler none h (wrapExc wrap source e0)
          ∧ propagateFailure fuel w t source (some e0) wrap = background w t true true
          ∧ (lookupTask (propagateFailure fuel w t source (some e0) wrap) t).map
              (fun td => (td.state, td.started, td.finished))
              = some (td.state, td.started, td.finished)) := by
  constructor
  · intro h hspec
    have hdec : propagateDecision td.errorHandlers source (some e0) wrap
        = .runHandler (some source) h (wrapExc wrap source e0) := by
      simp [propagateDecision, hspec]
    have heff : propagateFailure fuel w t source (some e0) wrap = background w t true true := by
      simp [propagateFailure, hlk, hdec]
    refine ⟨hdec, heff, ?_⟩
    rw [heff, background_keeps_core, hlk]
    rfl
  · intro h hno hwild
    have hdec : propagateDecision td.errorHandlers source (some e0) wrap
        = .runHandler none h (wrapExc wrap source e0) := by
      simp [propagateDecision, hno, hwild]
    have heff : propagateFailure fuel w t source (some e0) wrap = background w t true true := by
      simp [propagateFailure, hlk, hdec]
    refine ⟨hdec, heff, ?_⟩
    rw [heff, background_keeps_core, hlk]
    rfl

/-- Witness for the C3 theorem: with both a specific and a wildcard handler
registered the specific one fires; with only a wildcard the wildcard fires;
the observer task keeps its state and gates. -/
theorem propagate_handler_precedence_witness :
    (propagateDecision [(some 7, 11), (none, 12)] 7 (some (Exc.userExc 3)) WrapKind.dep
        = PropagateDecision.runHandler (some 7) 11 (Exc.dependencyFailed 7 (Exc.userExc 3)))
    ∧ (propagateDecision [(none, 12)] 7 (some (Exc.userExc 3)) WrapKind.dep
        = PropagateDecision.runHandler none 12 (Exc.dependencyFailed 7 (Exc.userExc 3)))
    ∧ ((lookupTask (propagateFailure 1 handlerBothWorld 5 7 (some (Exc.userExc 3)) WrapKind.dep) 5).map
        (fun td => (td.state, td.started, td.finished))
        = some (TaskState.running, Gate.pending, Gate.pending)) := by
  have h1 := (propagate_handler_precedence 1 handlerBothWorld 5 7 (Exc.userExc 3) WrapKind.dep
    ({ TaskData.init none with
        state := .running, errorHandlers := [(some 7, 11), (none, 12)] })
    (by decide)).1 11 (by decide)
  have h2 := (propagate_handler_precedence 1 handlerWildcardWorld 5 7 (Exc.userExc 3) WrapKind.dep
    ({ TaskData.init none with
        state := .running, errorHandlers := [(none, 12)] })
    (by decide)).2 12 (by decide) (by decide)
  exact ⟨h1.1, h2.1, h1.2.2⟩

end Mau

namespace Mau

/-- `__failed` on a live, childless task: the task gets its gates resolved
with the exception and moves to `failed`; every other task is untouched. -/
theorem failedFn_eval (fuel : Nat) (w : World) (t : TaskId) (e : Exc) (td : TaskData)
    (h : lookupTask w t = some td) (hlive : td.state.isFinished = false)
    (hch : td.children = []) :
    (lookupTask (failedFn fuel w t (some e)) t
        = some { failGates e td with state := .failed })
    ∧ ∀ s, s ≠ t → lookupTask (failedFn fuel w t (some e)) s = lookupTask w s := by
  have hne : td.state ≠ TaskState.failed := by
    intro h4
    rw [h4] at hlive
    exact Bool.noConfusion hlive
  constructor
  · simp only [failedFn, h, hlive, Bool.false_eq_true, if_false, hch, List.foldl_nil]
    exact lookup_update_changeState_self w t (failGates e) .failed td h (failGates_state e td) hne
  · intro s hst
    simp only [failedFn, h, hlive, Bool.false_eq_true, if_false, hch, List.foldl_nil]
    exact lookup_update_changeState_ne w t (failGates e) .failed s hst

/-- `__check_start` only acts on a task in `pending`. -/
theorem checkStart_noop (w : World) (t : TaskId) (lr : Bool) (td : TaskData)
    (h : lookupTask w t = some td) (hstate : td.state ≠ TaskState.pending) :
    checkStart w t lr = w := by
  simp [checkStart, h, hstate]

/-- `__dependency_finished` on an observer with no matching handler, whose
dependency's finished-gate holds a non-cancellation exception: the observer
fails with the wrapped `DependencyFailed` exception; other tasks are
untouched. -/
theorem dependencyFinished_fail_eval (fuel : Nat) (w : World) (t dep : TaskId) (lr : Bool)
    (td dd : TaskData) (ex : Exc)
    (ht : lookupTask w t = some td) (hdep : lookupTask w dep = some dd)
    (hdf : dd.finished = .exception ex) (hexc : ex.isCancelled = false)
    (hh1 : td.errorHandlers.lookup (some dep) = none)
    (hh2 : td.errorHandlers.lookup none = none)
    (hlive : td.state.isFinished = false) (hch : td.children = [])
    (hdt : dep ≠ t) :
    (lookupTask (dependencyFinished fuel w t dep lr) t
        = some { failGates (Exc.dependencyFailed dep ex)
            { td with pendingDependencies := td.pendingDependencies.erase dep }
            with state := .failed })
    ∧ ∀ s, s ≠ t → lookupTask (dependencyFinished fuel w t dep lr) s = lookupTask w s := by
  have ht1 : lookupTask (updateTask w t fun x =>
      { x with pendingDependencies := x.pendingDependencies.erase dep }) t
      = some { td with pendingDependencies := td.pendingDependencies.erase dep } := by
    rw [lookup_updateTask, if_pos rfl, ht]
    rfl
  have hdep1 : lookupTask (updateTask w t fun x =>
      { x with pendingDependencies := x.pendingDependencies.erase dep }) dep
      = some dd := by
    rw [lookup_updateTask, if_neg hdt, hdep]
  have hdec : propagateDecision td.errorHandlers dep (some ex) .dep
      = .fail (Exc.dependencyFailed dep ex) := by
    have hw : wrapExc .dep dep ex = Exc.dependencyFailed dep ex := by
      simp [wrapExc, hexc]
    have hic : (Exc.dependencyFailed dep ex).isCancelled = false := rfl
    simp [propagateDecision, hh1, hh2, hw, hic]
  have hprop : propagateFailure fuel (updateTask w t fun x =>
        { x with pendingDependencies := x.pendingDependencies.erase dep }) t dep none .dep
      = failedFn fuel (updateTask w t fun x =>
        { x with pendingDependencies := x.pendingDependencies.erase dep }) t
        (some (Exc.dependencyFailed dep ex)) := by
    simp [propagateFailure, ht1, hdep1, hdf, Gate.exceptionOf, hdec]
  have hfail := failedFn_eval fuel _ t (Exc.dependencyFailed dep ex)
    ({ td with pendingDependencies := td.pendingDependencies.erase dep }) ht1
    (by simpa using hlive) (by simpa using hch)
  have hcs := checkStart_noop (failedFn fuel (updateTask w t fun x =>
      { x with pendingDependencies := x.pendingDependencies.erase dep }) t
      (some (Exc.dependencyFailed dep ex))) t lr _ hfail.1 (by simp)
  constructor
  · simp only [dependencyFinished, ht]
    rw [hprop, hcs]
    exact hfail.1
  · intro s hst
    simp only [dependencyFinished, ht]
    rw [hprop, hcs, hfail.2 s hst, lookup_updateTask, if_neg hst]

/-- C4: when a task A fails with a (non-cancellation) exception E, a task B
that depends on A and has no matching error handler transitions to `failed`
and its finished-gate resolves with `DependencyFailed(A)` whose cause is E;
a task C depending on B with no matching handler likewise transitions to
`failed` with `DependencyFailed(B)` whose cause chain continues to
`DependencyFailed(A)` and E. -/
theorem dependency_failure_cascade (fuel : Nat) (w : World) (A B C : TaskId) (E : Exc)
    (lr1 lr2 : Bool) (ad bd cd : TaskData)
    (hA : lookupTask w A = some ad) (hB : lookupTask w B = some bd)
    (hC : lookupTask w C = some cd)
    (hAB : A ≠ B) (hBC : B ≠ C) (hAC : A ≠ C)
    (hEc : E.isCancelled = false)
    (haLive : ad.state.isFinished = false) (haFin : ad.finished = .pending)
    (haCh : ad.children = [])
    (hbLive : bd.state.isFinished = false) (hbFin : bd.finished = .pending)
    (hbCh : bd.children = [])
    (hbH1 : bd.errorHandlers.lookup (some A) = none)
    (hbH2 : bd.errorHandlers.lookup none = none)
    (hcLive : cd.state.isFinished = false) (hcFin : cd.finished = .pending)
    (hcCh : cd.children = [])
    (hcH1 : cd.errorHandlers.lookup (some B) = none)
    (hcH2 : cd.errorHandlers.lookup none = none) :
    ((lookupTask (failCascade fuel w A B C E lr1 lr2) B).map (fun td => td.state)
        = some TaskState.failed)
    ∧ ((lookupTask (failCascade fuel w A B C E lr1 lr2) B).map (fun td => td.finished)
        = some (Gate.exception (Exc.dependencyFailed A E)))
    ∧ (Exc.dependencyFailed A E).cause = some E
    ∧ ((lookupTask (failCascade fuel w A B C E lr1 lr2) C).map (fun td => td.state)
        = some TaskState.failed)
    ∧ ((lookupTask (failCascade fuel w A B C E lr1 lr2) C).map (fun td => td.finished)
        = some (Gate.exception (Exc.dependencyFailed B (Exc.dependencyFailed A E))))
    ∧ (Exc.dependencyFailed B (Exc.dependencyFailed A E)).cause
        = some (Exc.dependencyFailed A E) := by
  have hA1 := failedFn_eval fuel w A E ad hA haLive haCh
  have hBw1 : lookupTask (failedFn fuel w A (some E)) B = some bd := by
    rw [hA1.2 B (Ne.symm hAB)]
    exact hB
  have hCw1 : lookupTask (failedFn fuel w A (some E)) C = some cd := by
    rw [hA1.2 C (Ne.symm hAC)]
    exact hC
  have hAfin : ({ failGates E ad with state := TaskState.failed } : TaskData).finished
      = Gate.exception E := by
    simp [failGates, haFin, Gate.done]
  have hB2 := dependencyFinished_fail_eval fuel (failedFn fuel w A (some E)) B A lr1 bd
    ({ failGates E ad with state := TaskState.failed }) E hBw1 hA1.1 hAfin hEc hbH1 hbH2
    hbLive hbCh hAB
  have hBfin : ({ failGates (Exc.dependencyFailed A E)
      { bd with pendingDependencies := bd.pendingDependencies.erase A }
      with state := TaskState.failed } : TaskData).finished
      = Gate.exception (Exc.dependencyFailed A E) := by
    simp [failGates, hbFin, Gate.done]
  have hCw2 : lookupTask (dependencyFinished fuel (failedFn fuel w A (some E)) B A lr1) C
      = some cd := by
    rw [hB2.2 C (Ne.symm hBC)]
    exact hCw1
  have hC3 := dependencyFinished_fail_eval fuel
    (dependencyFinished fuel (failedFn fuel w A (some E)) B A lr1) C B lr2 cd
    ({ failGates (Exc.dependencyFailed A E)
        { bd with pendingDependencies := bd.pendingDependencies.erase A }
        with state := TaskState.failed })
    (Exc.dependencyFailed A E) hCw2 hB2.1 hBfin rfl hcH1 hcH2 hcLive hcCh hBC
  refine ⟨?_, ?_, rfl, ?_, ?_, rfl⟩
  · simp only [failCascade]
    rw [hC3.2 B hBC, hB2.1]
    rfl
  · simp only [failCascade]
    rw [hC3.2 B hBC, hB2.1]
    simp [failGates, hbFin, Gate.done]
  · simp only [failCascade]
    rw [hC3.1]
    rfl
  · simp only [failCascade]
    rw [hC3.1]
    simp [failGates, hcFin, Gate.done]

/-- Witness for the C4 theorem at the concrete three-task chain. -/
theorem dependency_failure_cascade_witness :
    ((lookupTask (failCascade 1 failChainWorld 0 1 2 (Exc.userExc 3) false false) 1).map
        (fun td => td.state) = some TaskState.failed)
    ∧ ((lookupTask (failCascade 1 failChainWorld 0 1 2 (Exc.userExc 3) false false) 2).map
        (fun td => td.finished)
        = some (Gate.exception (Exc.dependencyFailed 1 (Exc.dependencyFailed 0 (Exc.userExc 3))))) := by
  have h := dependency_failure_cascade 1 failChainWorld 0 1 2 (Exc.userExc 3) false false
    ({ TaskData.init none with state := .running })
    ({ TaskData.init none with state := .pending, pendingDependencies := [0] })
    ({ TaskData.init none with state := .pending, pendingDependencies := [1] })
    (by decide) (by decide) (by decide) (by decide) (by decide) (by decide) (by decide)
    (by decide) (by decide) (by decide) (by decide) (by decide) (by decide) (by decide)
    (by decide) (by decide) (by decide) (by decide) (by decide) (by decide)
  exact ⟨h.1, h.2.2.2.2.1⟩

end Mau

namespace Mau.Ctx

open Mau

/-- The ancestor walk of `__get__` finds exactly the override of the first
task on the ancestor chain that has one. -/
theorem ctxWalk_eq_findSome (fuel : Nat) :
    ∀ (w : CtxWorld) (cur : Option TaskId),
      ctxWalk fuel w cur
        = (ancestorChain fuel w cur).findSome? (fun a => alookup w.overrides a) := by
  induction fuel with
  | zero =>
    intro w cur
    cases cur with
    | none => rfl
    | some t => rfl
  | succ n ih =>
    intro w cur
    cases cur with
    | none => rfl
    | some t =>
      simp only [ctxWalk, ancestorChain, List.findSome?_cons]
      cases h : alookup w.overrides t with
      | some v => simp [h]
      | none => simp [h, ih]

/-- C8: reading a context variable returns the override of the nearest
ancestor (the current task included) that has one; with no override on the
chain it returns the default, and with no default it fails with the
"not set" error.  Writing with no current task sets the default and nothing
else; writing with a current task sets only that task's override, leaving
the default and all other overrides alone. -/
theorem context_var_semantics (fuel : Nat) (w : CtxWorld) (cur : Option TaskId)
    (t s : TaskId) (v : Nat) :
    (ctxGet fuel w cur
      = match (ancestorChain fuel w cur).findSome? (fun a => alookup w.overrides a) with
        | some x => CtxRead.val x
        | none =>
          match w.default with
          | some x => CtxRead.val x
          | none => CtxRead.notSet)
    ∧ ctxSet w none v = { w with default := some v }
    ∧ (alookup (ctxSet w (some t) v).overrides s
        = if s = t then some v else alookup w.overrides s)
    ∧ (ctxSet w (some t) v).default = w.default
    ∧ (ctxSet w (some t) v).parents = w.parents := by
  refine ⟨?_, rfl, ?_, rfl, rfl⟩
  · rw [ctxGet, ctxWalk_eq_findSome]
  · show alookup (aset w.overrides t v) s = _
    rw [alookup_aset]

end Mau.Ctx

namespace Mau.Events

open Mau

theorem emitStep_parents (node : TaskId) (ev : Ev) (w : EvWorld) (ty : Nat) :
    (emitStep node ev w ty).parents = w.parents := by
  unfold emitStep
  cases h : alookup w.cursors (node, ty) with
  | none => rfl
  | some cd =>
    dsimp only
    by_cases hc : cd.closed = true
    · rw [if_pos hc]
    · rw [if_neg hc]

theorem emitStep_cursor_ne (node : TaskId) (ev : Ev) (w : EvWorld) (ty : Nat)
    (a : TaskId) (ty₂ : Nat) (h2 : (a, ty₂) ≠ (node, ty)) :
    alookup (emitStep node ev w ty).cursors (a, ty₂) = alookup w.cursors (a, ty₂) := by
  unfold emitStep
  cases h : alookup w.cursors (node, ty) with
  | none => rfl
  | some cd =>
    dsimp only
    by_cases hc : cd.closed = true
    · rw [if_pos hc]
    · rw [if_neg hc]
      show alookup (aset w.cursors (node, ty) _) (a, ty₂) = _
      rw [alookup_aset, if_neg h2]

theorem emitStep_cursor_self (node : TaskId) (ev : Ev) (w : EvWorld) (ty : Nat)
    (cd : CursorData) (hcd : alookup w.cursors (node, ty) = some cd)
    (hopen : cd.closed = false) :
    alookup (emitStep node ev w ty).cursors (node, ty)
      = some { cd with log := cd.log ++ [ev] } := by
  unfold emitStep
  rw [hcd]
  dsimp only
  rw [if_neg (by rw [hopen]; exact Bool.noConfusion)]
  show alookup (aset w.cursors (node, ty) _) (node, ty) = _
  rw [alookup_aset, if_pos rfl]

/-- The inner loop leaves every cursor whose key it never visits alone. -/
theorem foldl_emitStep_ne (node : TaskId) (ev : Ev) (a : TaskId) (ty : Nat) :
    ∀ (l : List Nat) (w : EvWorld), (∀ ty₂ ∈ l, (a, ty) ≠ (node, ty₂)) →
      alookup (l.foldl (emitStep node ev) w).cursors (a, ty)
        = alookup w.cursors (a, ty) := by
  intro l
  induction l with
  | nil => intro w _; rfl
  | cons hd tl ih =>
    intro w hne
    rw [List.foldl_cons, ih _ (fun ty₂ h => hne ty₂ (List.mem_cons_of_mem hd h))]
    exact emitStep_cursor_ne node ev w hd a ty (hne hd (List.mem_cons_self hd tl))

theorem foldl_emitStep_parents (node : TaskId) (ev : Ev) :
    ∀ (l : List Nat) (w : EvWorld),
      (l.foldl (emitStep node ev) w).parents = w.parents := by
  intro l
  induction l with
  | nil => intro w; rfl
  | cons hd tl ih =>
    intro w
    rw [List.foldl_cons, ih, emitStep_parents]

/-- The inner loop appends the event exactly once to a registered open
cursor of a type that occurs exactly once in the mro. -/
theorem foldl_emitStep_append (node : TaskId) (ev : Ev) (ty : Nat) :
    ∀ (l : List Nat) (w : EvWorld) (cd : CursorData),
      alookup w.cursors (node, ty) = some cd → cd.closed = false →
      ty ∈ l → l.count ty = 1 →
      alookup (l.foldl (emitStep node ev) w).cursors (node, ty)
        = some { cd with log := cd.log ++ [ev] } := by
  intro l
  induction l with
  | nil => intro w cd _ _ hm _; simp at hm
  | cons hd tl ih =>
    intro w cd hcd hopen hm hcount
    rw [List.foldl_cons]
    by_cases hdt : hd = ty
    · subst hdt
      have htl : hd ∉ tl := by
        rw [List.count_cons_self] at hcount
        have h0 : tl.count hd = 0 := by omega
        exact List.count_eq_zero.mp h0
      rw [foldl_emitStep_ne node ev node hd tl _
        (fun ty₂ h2 => by
          intro hEq
          injection hEq with hEq1 hEq2
          rw [hEq2] at htl
          exact htl h2)]
      exact emitStep_cursor_self node ev w hd cd hcd hopen
    · have hm2 : ty ∈ tl := by
        rcases List.mem_cons.mp hm with h2 | h2
        · exact absurd h2.symm hdt
        · exact h2
      have hcount2 : tl.count ty = 1 := by
        rw [List.count_cons_of_ne (fun h2 => hdt h2.symm)] at hcount
        exact hcount
      refine ih _ cd ?_ hopen hm2 hcount2
      rw [emitStep_cursor_ne node ev w hd node ty
        (fun hEq => by injection hEq with hEq1 hEq2; exact hdt hEq2.symm)]
      exact hcd

theorem emitAt_parents (w : EvWorld) (node : TaskId) (ev : Ev) :
    (emitAt w node ev).parents = w.parents :=
  foldl_emitStep_parents node ev ev.mro w

/-- The walk of `__emit_event__` leaves every cursor of a task not on the
chain alone. -/
theorem foldl_emitAt_ne (ev : Ev) (a : TaskId) (ty : Nat) :
    ∀ (chain : List TaskId) (w : EvWorld), a ∉ chain →
      alookup ((chain.foldl (fun w node => emitAt w node ev) w)).cursors (a, ty)
        = alookup w.cursors (a, ty) := by
  intro chain
  induction chain with
  | nil => intro w _; rfl
  | cons hd tl ih =>
    intro w hna
    rw [List.foldl_cons, ih _ (fun h => hna (List.mem_cons_of_mem hd h))]
    exact foldl_emitStep_ne hd ev a ty ev.mro w
      (fun ty₂ _ => by
        intro hEq
        injection hEq with hEq1 hEq2
        rw [hEq1] at hna
        exact hna (List.mem_cons_self hd tl))

theorem foldl_emitAt_parents (ev : Ev) :
    ∀ (chain : List TaskId) (w : EvWorld),
      (chain.foldl (fun w node => emitAt w node ev) w).parents = w.parents := by
  intro chain
  induction chain with
  | nil => intro w; rfl
  | cons hd tl ih =>
    intro w
    rw [List.foldl_cons, ih, emitAt_parents]

/-- The walk of `__emit_event__` appends the event exactly once to the
cursor of the one chain node that holds it. -/
theorem foldl_emitAt_append (ev : Ev) (a : TaskId) (ty : Nat)
    (hm1 : ty ∈ ev.mro) (hc1 : ev.mro.count ty = 1) :
    ∀ (chain : List TaskId) (w : EvWorld) (cd : CursorData),
      alookup w.cursors (a, ty) = some cd → cd.closed = false →
      a ∈ chain → chain.count a = 1 →
      alookup ((chain.foldl (fun w node => emitAt w node ev) w)).cursors (a, ty)
        = some { cd with log := cd.log ++ [ev] } := by
  intro chain
  induction chain with
  | nil => intro w cd _ _ hm _; simp at hm
  | cons hd tl ih =>
    intro w cd hcd hopen hm hcount
    rw [List.foldl_cons]
    by_cases hda : hd = a
    · subst hda
      have htl : hd ∉ tl := by
        rw [List.count_cons_self] at hcount
        have h0 : tl.count hd = 0 := by omega
        exact List.count_eq_zero.mp h0
      rw [foldl_emitAt_ne ev hd ty tl _ htl]
      exact foldl_emitStep_append hd ev ty ev.mro w cd hcd hopen hm1 hc1
    · have hm2 : a ∈ tl := by
        rcases List.mem_cons.mp hm with h2 | h2
        · exact absurd h2.symm hda
        · exact h2
      have hcount2 : tl.count a = 1 := by
        rw [List.count_cons_of_ne (fun h2 => hda h2.symm)] at hcount
        exact hcount
      refine ih _ cd ?_ hopen hm2 hcount2
      unfold emitAt
      rw [foldl_emitStep_ne hd ev a ty ev.mro w
        (fun ty₂ _ => by
          intro hEq
          injection hEq with hEq1 hEq2
          exact hda hEq1.symm)]
      exact hcd

/-- `taskChain` only depends on the parent links. -/
theorem taskChain_congr (fuel : Nat) :
    ∀ (w₁ w₂ : EvWorld) (cur : Option TaskId), w₁.parents = w₂.parents →
      taskChain fuel w₁ cur = taskChain fuel w₂ cur := by
  induction fuel with
  | zero =>
    intro w₁ w₂ cur _
    cases cur with
    | none => rfl
    | some t => rfl
  | succ n ih =>
    intro w₁ w₂ cur hp
    cases cur with
    | none => rfl
    | some t =>
      simp only [taskChain, hp]
      rw [ih w₁ w₂ _ hp]

theorem emitEvent_parents (fuel : Nat) (w : EvWorld) (ev : Ev) :
    (emitEvent fuel w ev).parents = w.parents :=
  foldl_emitAt_parents ev _ w

/-- `streamYields` distributes over concatenation of the chain. -/
theorem streamYields_append (wh : Ev → Bool) :
    ∀ (l₁ l₂ : List Ev),
      streamYields wh (l₁ ++ l₂) = streamYields wh l₁ ++ streamYields wh l₂ := by
  intro l₁
  induction l₁ with
  | nil => intro l₂; rfl
  | cons hd tl ih =>
    intro l₂
    show streamYields wh (hd :: (tl ++ l₂)) = _
    simp only [streamYields]
    by_cases h : wh hd = true
    · rw [if_pos h, if_pos h, ih, List.cons_append]
    · rw [if_neg h, if_neg h, ih]

/-- A subscriber at the end of a cancelled cursor chain observes
end-of-stream. -/
theorem streamNext_eos (wh : Ev → Bool) :
    ∀ (l : List Ev), streamYields wh l = [] → streamNext true wh l = .endOfStream := by
  intro l
  induction l with
  | nil => intro _; rfl
  | cons hd tl ih =>
    intro h
    simp only [streamYields] at h
    by_cases hw : wh hd = true
    · rw [if_pos hw] at h
      exact absurd h (List.cons_ne_nil hd _)
    · rw [if_neg hw] at h
      simp only [streamNext]
      rw [if_neg hw]
      exact ih h

/-- C9: two events E1 and E2 emitted in that order from the same source task
are appended in that order to the chain of every cursor registered on that
task or one of its ancestors for the exact type or a supertype of the
events (assuming the cursor future is not cancelled); every subscriber of
that cursor therefore observes them in emission order E1 then E2 (modulo
its `where` filter); and a subscriber that exhausts the chain of a cursor
whose future was cancelled during cleanup observes end-of-stream. -/
theorem event_order_and_eos (fuel : Nat) (w : EvWorld) (a : TaskId) (ty : Nat)
    (cd : CursorData) (e1 e2 : Ev) (src : TaskId)
    (hs1 : e1.source = src) (hs2 : e2.source = src)
    (hcd : alookup w.cursors (a, ty) = some cd) (hopen : cd.closed = false)
    (hmem : a ∈ taskChain fuel w (some src))
    (hcnt : (taskChain fuel w (some src)).count a = 1)
    (hm1 : ty ∈ e1.mro) (hc1 : e1.mro.count ty = 1)
    (hm2 : ty ∈ e2.mro) (hc2 : e2.mro.count ty = 1) :
    (alookup (emitEvent fuel (emitEvent fuel w e1) e2).cursors (a, ty)
        = some { cd with log := cd.log ++ [e1] ++ [e2] })
    ∧ (∀ (wh : Ev → Bool) (tl : List Ev),
        streamYields wh (tl ++ [e1] ++ [e2])
          = streamYields wh tl
              ++ (if wh e1 then [e1] else []) ++ (if wh e2 then [e2] else []))
    ∧ (∀ (wh : Ev → Bool) (l : List Ev), streamYields wh l = [] →
        streamNext true wh l = .endOfStream) := by
  refine ⟨?_, ?_, streamNext_eos⟩
  · have hch1 : taskChain fuel w (some e1.source) = taskChain fuel w (some src) := by
      rw [hs1]
    have h1 : alookup (emitEvent fuel w e1).cursors (a, ty)
        = some { cd with log := cd.log ++ [e1] } := by
      unfold emitEvent
      rw [hch1]
      exact foldl_emitAt_append e1 a ty hm1 hc1 _ w cd hcd hopen hmem hcnt
    have hp1 : (emitEvent fuel w e1).parents = w.parents := emitEvent_parents fuel w e1
    have hch2 : taskChain fuel (emitEvent fuel w e1) (some e2.source)
        = taskChain fuel w (some src) := by
      rw [hs2]
      exact taskChain_congr fuel _ w _ hp1
    have h2 : alookup (emitEvent fuel (emitEvent fuel w e1) e2).cursors (a, ty)
        = some { { cd with log := cd.log ++ [e1] } with
            log := ({ cd with log := cd.log ++ [e1] } : CursorData).log ++ [e2] } := by
      show alookup ((taskChain fuel (emitEvent fuel w e1) (some e2.source)).foldl
          (fun w node => emitAt w node e2) (emitEvent fuel w e1)).cursors (a, ty) = _
      rw [hch2]
      exact foldl_emitAt_append e2 a ty hm2 hc2 _ _ _ h1 hopen hmem hcnt
    rw [h2]
  · intro wh tl
    rw [streamYields_append, streamYields_append]
    simp only [streamYields]

/-- Witness for the C9 theorem: two type-5 events emitted by child task 1
reach the root's type-5 cursor in order; a subscriber filtering
`payload > 1` yields exactly the second; end-of-stream after a cancelled
cursor. -/
theorem event_order_and_eos_witness :
    (alookup (emitEvent 3 (emitEvent 3 evWitWorld ev1def) ev2def).cursors (0, 5)
        = some ⟨[ev1def, ev2def], false⟩)
    ∧ streamYields (fun e => decide (1 < e.payload)) ([] ++ [ev1def] ++ [ev2def])
        = [ev2def]
    ∧ streamNext true (fun e => decide (1 < e.payload)) [] = .endOfStream := by
  have h := event_order_and_eos 3 evWitWorld 0 5 ⟨[], false⟩ ev1def ev2def 1
    rfl rfl (by decide) (by decide) (by decide) (by decide) (by decide) (by decide)
    (by decide) (by decide)
  refine ⟨?_, ?_, h.2.2 _ [] rfl⟩
  · exact h.1
  · have h2 := h.2.1 (fun e => decide (1 < e.payload)) []
    rw [h2]
    decide

end Mau.Events

namespace Mau

theorem alookup_mem {κ α : Type} [DecidableEq κ] :
    ∀ (l : List (κ × α)) (t : κ) (v : α), alookup l t = some v → (t, v) ∈ l := by
  intro l
  induction l with
  | nil => intro t v h; exact Option.noConfusion h
  | cons hd tl ih =>
    intro t v h
    obtain ⟨k, x⟩ := hd
    by_cases hk : k = t
    · subst hk
      simp only [alookup, if_pos rfl] at h
      injection h with h2
      rw [h2]
      exact List.mem_cons_self _ _
    · simp only [alookup, if_neg hk] at h
      exact List.mem_cons_of_mem _ (ih t v h)

/-- Establish `WorldInv` for a concrete world by checking each entry. -/
theorem WorldInv_of_all (w : World) (h : ∀ p ∈ w.tasks, TaskInvP p.2) : WorldInv w :=
  fun t td hlk => h (t, td) (alookup_mem w.tasks t td hlk)

theorem TaskInvP_of_core (td td₂ : TaskData) (h : invCore td₂ = invCore td) :
    TaskInvP td → TaskInvP td₂ := by
  unfold invCore at h
  rw [Prod.ext_iff, Prod.ext_iff, Prod.ext_iff, Prod.ext_iff] at h
  obtain ⟨h1, h2, h3, h4, h5⟩ := h
  dsimp only at h1 h2 h3 h4 h5
  unfold TaskInvP
  rw [h1, h2, h3, h4, h5]
  exact id

theorem StepSafe.of_inv (w : World) (hw : WorldInv w) : StepSafe w w := by
  refine ⟨hw, ?_, ?_, ?_, ?_⟩
  · intro t td td₂ h h₂ _
    rw [h] at h₂
    injection h₂ with h3
    rw [← h3]
  · intro t td td₂ h h₂ hpend hdone
    rw [h] at h₂
    injection h₂ with h3
    rw [← h3] at hdone
    rw [hdone] at hpend
    exact Bool.noConfusion hpend
  · intro t td td₂ h h₂ hdone
    rw [h] at h₂
    injection h₂ with h3
    rw [← h3]
    exact hdone
  · intro t
    rfl

theorem StepSafe.trans (w w₁ w₂ : World) (h1 : StepSafe w w₁) (h2 : StepSafe w₁ w₂) :
    StepSafe w w₂ := by
  obtain ⟨hi1, hf1, hn1, hs1, hd1⟩ := h1
  obtain ⟨hi2, hf2, hn2, hs2, hd2⟩ := h2
  refine ⟨hi2, ?_, ?_, ?_, ?_⟩
  · intro t td td₂ h h₂ hdone
    have hsm : (lookupTask w₁ t).isSome = true := by rw [hd1, h]; rfl
    obtain ⟨m, hm⟩ := Option.isSome_iff_exists.mp hsm
    have e1 := hf1 t td m h hm hdone
    have e2 := hf2 t m td₂ hm h₂ (by rw [e1]; exact hdone)
    rw [e2, e1]
  · intro t td td₂ h h₂ hpend hdone
    have hsm : (lookupTask w₁ t).isSome = true := by rw [hd1, h]; rfl
    obtain ⟨m, hm⟩ := Option.isSome_iff_exists.mp hsm
    by_cases hmid : m.finished.done = true
    · exact hs2 t m td₂ hm h₂ (hn1 t td m h hm hpend hmid)
    · have hmid2 : m.finished.done = false := by
        cases h3 : m.finished.done
        · rfl
        · exact absurd h3 hmid
      exact hn2 t m td₂ hm h₂ hmid2 hdone
  · intro t td td₂ h h₂ hdone
    have hsm : (lookupTask w₁ t).isSome = true := by rw [hd1, h]; rfl
    obtain ⟨m, hm⟩ := Option.isSome_iff_exists.mp hsm
    exact hs2 t m td₂ hm h₂ (hs1 t td m h hm hdone)
  · intro t
    rw [hd2, hd1]

/-- A step that does not change any lookup is safe. -/
theorem stepSafe_of_lookup_eq (w w₂ : World) (hw : WorldInv w)
    (h : ∀ t, lookupTask w₂ t = lookupTask w t) : StepSafe w w₂ := by
  refine ⟨?_, ?_, ?_, ?_, ?_⟩
  · intro t td₂ h₂
    rw [h] at h₂
    exact hw t td₂ h₂
  · intro t td td₂ hl h₂ _
    rw [h, hl] at h₂
    injection h₂ with h3
    rw [← h3]
  · intro t td td₂ hl h₂ hpend hdone
    rw [h, hl] at h₂
    injection h₂ with h3
    rw [← h3] at hdone
    rw [hdone] at hpend
    exact Bool.noConfusion hpend
  · intro t td td₂ hl h₂ hdone
    rw [h, hl] at h₂
    injection h₂ with h3
    rw [← h3]
    exact hdone
  · intro t
    rw [h]

/-- A step that keeps every task's `invCore` is safe. -/
theorem stepSafe_of_core (w w₂ : World) (hw : WorldInv w) (hdom : DomEq w w₂)
    (hcore : ∀ t td td₂, lookupTask w t = some td → lookupTask w₂ t = some td₂ →
      invCore td₂ = invCore td) : StepSafe w w₂ := by
  have hfields : ∀ t td td₂, lookupTask w t = some td → lookupTask w₂ t = some td₂ →
      td₂.state = td.state ∧ td₂.started = td.started ∧ td₂.finished = td.finished := by
    intro t td td₂ h h₂
    have h3 := hcore t td td₂ h h₂
    unfold invCore at h3
    rw [Prod.ext_iff, Prod.ext_iff, Prod.ext_iff, Prod.ext_iff] at h3
    exact ⟨h3.1, h3.2.1, h3.2.2.1⟩
  refine ⟨?_, ?_, ?_, ?_, hdom⟩
  · intro t td₂ h₂
    have hsm : (lookupTask w t).isSome = true := by rw [← hdom, h₂]; rfl
    obtain ⟨td, htd⟩ := Option.isSome_iff_exists.mp hsm
    exact TaskInvP_of_core td td₂ (hcore t td td₂ htd h₂) (hw t td htd)
  · intro t td td₂ h h₂ _
    exact (hfields t td td₂ h h₂).2.2
  · intro t td td₂ h h₂ hpend hdone
    rw [(hfields t td td₂ h h₂).2.2] at hdone
    rw [hdone] at hpend
    exact Bool.noConfusion hpend
  · intro t td td₂ h h₂ hdone
    rw [(hfields t td td₂ h h₂).2.1]
    exact hdone

/-- An `updateTask` whose function keeps the observable core is safe. -/
theorem stepSafe_updateTask (w : World) (t : TaskId) (f : TaskData → TaskData)
    (hw : WorldInv w) (hf : ∀ td, invCore (f td) = invCore td) :
    StepSafe w (updateTask w t f) := by
  refine stepSafe_of_core w _ hw ?_ ?_
  · intro s
    rw [lookup_updateTask]
    by_cases hst : s = t
    · rw [if_pos hst]
      cases lookupTask w s <;> rfl
    · rw [if_neg hst]
  · intro s td td₂ h h₂
    rw [lookup_updateTask] at h₂
    by_cases hst : s = t
    · rw [if_pos hst, h] at h₂
      injection h₂ with h3
      rw [← h3]
      exact hf td
    · rw [if_neg hst, h] at h₂
      injection h₂ with h3
      rw [← h3]

end Mau

namespace Mau

theorem NewFin_of_inv (w w₂ : World) (hi : WorldInv w₂) : NewFin w w₂ :=
  fun _ _ td₂ _ h₂ _ hdone => (hi _ td₂ h₂).1 hdone

/-- A step that modifies only task `t` is safe once the new record satisfies
the invariant and the gate conditions. -/
theorem stepSafe_local (w w₂ : World) (hw : WorldInv w) (t : TaskId)
    (hne : ∀ s, s ≠ t → lookupTask w₂ s = lookupTask w s)
    (hdomt : (lookupTask w₂ t).isSome = (lookupTask w t).isSome)
    (hself : ∀ td td₂, lookupTask w t = some td → lookupTask w₂ t = some td₂ →
      TaskInvP td₂ ∧ (td.finished.done = true → td₂.finished = td.finished)
        ∧ (td.started.done = true → td₂.started.done = true)) :
    StepSafe w w₂ := by
  have hi : WorldInv w₂ := by
    intro s td₂ h₂
    by_cases hst : s = t
    · subst hst
      have hsm : (lookupTask w s).isSome = true := by rw [← hdomt, h₂]; rfl
      obtain ⟨td, htd⟩ := Option.isSome_iff_exists.mp hsm
      exact (hself td td₂ htd h₂).1
    · rw [hne s hst] at h₂
      exact hw s td₂ h₂
  refine ⟨hi, ?_, NewFin_of_inv w w₂ hi, ?_, ?_⟩
  · intro s td td₂ h h₂ hdone
    by_cases hst : s = t
    · subst hst
      exact (hself td td₂ h h₂).2.1 hdone
    · rw [hne s hst, h] at h₂
      injection h₂ with h3
      rw [← h3]
  · intro s td td₂ h h₂ hdone
    by_cases hst : s = t
    · subst hst
      exact (hself td td₂ h h₂).2.2 hdone
    · rw [hne s hst, h] at h₂
      injection h₂ with h3
      rw [← h3]
      exact hdone
  · intro s
    by_cases hst : s = t
    · subst hst
      exact hdomt
    · rw [hne s hst]

theorem cancelGates_started_done (td : TaskData) : (cancelGates td).started.done = true := by
  unfold cancelGates
  dsimp only
  by_cases h : td.started.done = true
  · rw [if_pos h]
    exact h
  · rw [if_neg h]
    rfl

theorem cancelGates_finished_done (td : TaskData) : (cancelGates td).finished.done = true := by
  unfold cancelGates
  dsimp only
  by_cases h : td.finished.done = true
  · rw [if_pos h]
    exact h
  · rw [if_neg h]
    rfl

theorem cancelGates_finished_keep (td : TaskData) (h : td.finished.done = true) :
    (cancelGates td).finished = td.finished := by
  unfold cancelGates
  dsimp only
  rw [if_pos h]

theorem failGates_started_done (e : Exc) (td : TaskData) :
    (failGates e td).started.done = true := by
  unfold failGates
  dsimp only
  by_cases h : td.started.done = true
  · rw [if_pos h]
    exact h
  · rw [if_neg h]
    rfl

theorem failGates_finished_done (e : Exc) (td : TaskData) :
    (failGates e td).finished.done = true := by
  unfold failGates
  dsimp only
  by_cases h : td.finished.done = true
  · rw [if_pos h]
    exact h
  · rw [if_neg h]
    rfl

theorem failGates_finished_keep (e : Exc) (td : TaskData) (h : td.finished.done = true) :
    (failGates e td).finished = td.finished := by
  unfold failGates
  dsimp only
  rw [if_pos h]

/-- `__change_state` is safe once the changed record satisfies the
invariant. -/
theorem stepSafe_changeState (w : World) (t : TaskId) (ns : TaskState) (hw : WorldInv w)
    (hup : ∀ td, lookupTask w t = some td → td.state ≠ ns →
      TaskInvP { td with state := ns }) :
    StepSafe w (changeState w t ns) := by
  apply stepSafe_local w _ hw t
  · intro s hst
    exact lookup_changeState_ne w t ns s hst
  · rw [lookup_changeState_self]
    cases lookupTask w t <;> rfl
  · intro td td₂ h h₂
    rw [lookup_changeState_self, h] at h₂
    injection h₂ with h3
    dsimp only at h3
    by_cases he : td.state = ns
    · rw [if_pos he] at h3
      rw [← h3]
      exact ⟨hw t td h, fun _ => rfl, fun h4 => h4⟩
    · rw [if_neg he] at h3
      rw [← h3]
      exact ⟨hup td h he, fun _ => rfl, fun h4 => h4⟩

/-- Resolving the started-gate of a `pending` task (`__check_start`). -/
theorem stepSafe_setStarted (w : World) (t : TaskId) (hw : WorldInv w)
    (hpend : ∀ td, lookupTask w t = some td → td.state = .pending) :
    StepSafe w (updateTask w t fun td => { td with started := .result }) := by
  apply stepSafe_local w _ hw t
  · intro s hst
    rw [lookup_updateTask, if_neg hst]
  · rw [lookup_updateTask, if_pos rfl]
    cases lookupTask w t <;> rfl
  · intro td td₂ h h₂
    rw [lookup_updateTask, if_pos rfl, h] at h₂
    injection h₂ with h3
    rw [← h3]
    have hinv := hw t td h
    unfold TaskInvP at hinv
    obtain ⟨c1, c2, c3, c4, c5, c6⟩ := hinv
    have hp := hpend td h
    refine ⟨?_, fun _ => rfl, fun _ => rfl⟩
    unfold TaskInvP
    dsimp only
    refine ⟨fun _ => rfl, c2, ?_, c4, c5, fun _ => rfl⟩
    intro h4
    rw [hp] at h4
    exact TaskState.noConfusion h4

/-- Changing only the must-drain counter of task `t`. -/
theorem stepSafe_waitBgUpdate (w : World) (t : TaskId) (f : Nat → Nat) (hw : WorldInv w)
    (hf : ∀ td, lookupTask w t = some td → td.cleanedUp = true → td.state = .waiting →
      f td.waitBackgroundTasks = 0) :
    StepSafe w (updateTask w t fun td =>
      { td with waitBackgroundTasks := f td.waitBackgroundTasks }) := by
  apply stepSafe_local w _ hw t
  · intro s hst
    rw [lookup_updateTask, if_neg hst]
  · rw [lookup_updateTask, if_pos rfl]
    cases lookupTask w t <;> rfl
  · intro td td₂ h h₂
    rw [lookup_updateTask, if_pos rfl, h] at h₂
    injection h₂ with h3
    rw [← h3]
    have hinv := hw t td h
    unfold TaskInvP at hinv
    obtain ⟨c1, c2, c3, c4, c5, c6⟩ := hinv
    refine ⟨?_, fun _ => rfl, fun h4 => h4⟩
    unfold TaskInvP
    dsimp only
    exact ⟨c1, c2, c3, fun h4 h5 => hf td h h4 h5, c5, c6⟩

/-- Setting the cleaned-up flag (`__cleanup` entry). -/
theorem stepSafe_setCleanedUp (w : World) (t : TaskId) (hw : WorldInv w)
    (hok : ∀ td, lookupTask w t = some td →
      td.state.isFinished = true ∨ (td.state = .waiting ∧ td.waitBackgroundTasks = 0)) :
    StepSafe w (updateTask w t fun td => { td with cleanedUp := true }) := by
  apply stepSafe_local w _ hw t
  · intro s hst
    rw [lookup_updateTask, if_neg hst]
  · rw [lookup_updateTask, if_pos rfl]
    cases lookupTask w t <;> rfl
  · intro td td₂ h h₂
    rw [lookup_updateTask, if_pos rfl, h] at h₂
    injection h₂ with h3
    rw [← h3]
    have hinv := hw t td h
    unfold TaskInvP at hinv
    obtain ⟨c1, c2, c3, c4, c5, c6⟩ := hinv
    refine ⟨?_, fun _ => rfl, fun h4 => h4⟩
    unfold TaskInvP
    dsimp only
    refine ⟨c1, c2, fun _ _ => rfl, ?_, ?_, c6⟩
    · intro _ h5
      rcases hok td h with h6 | h6
      · rw [h5] at h6
        exact Bool.noConfusion h6
      · exact h6.2
    · intro _
      rcases hok td h with h6 | h6
      · right
        exact h6
      · left
        exact h6.1

/-- The gate updates and state change at the head of `__cancel`. -/
theorem stepSafe_cancelCore (w : World) (t : TaskId) (d : Bool) (hw : WorldInv w)
    (td : TaskData) (hlk : lookupTask w t = some td)
    (hlive : td.state.isFinished = false) :
    StepSafe w (changeState (updateTask w t cancelGates) t
      (if d then .discarded else .cancelled)) := by
  have hne : td.state ≠ (if d then TaskState.discarded else TaskState.cancelled) := by
    intro h4
    rw [h4, flavour_isFinished] at hlive
    exact Bool.noConfusion hlive
  apply stepSafe_local w _ hw t
  · intro s hst
    exact lookup_update_changeState_ne w t cancelGates _ s hst
  · rw [lookup_update_changeState_self w t cancelGates _ td hlk (cancelGates_state td) hne,
      hlk]
    rfl
  · intro td₁ td₂ h h₂
    rw [h] at hlk
    injection hlk with h5
    subst h5
    rw [lookup_update_changeState_self w t cancelGates _ td₁ h (cancelGates_state td₁) hne]
      at h₂
    injection h₂ with h3
    rw [← h3]
    refine ⟨?_, ?_, ?_⟩
    · unfold TaskInvP
      dsimp only
      refine ⟨fun _ => cancelGates_started_done td₁, ?_, ?_, ?_, ?_,
        fun _ => cancelGates_started_done td₁⟩
      · intro h4
        cases d <;> rcases h4 with h5 | h5 | h5 <;> exact TaskState.noConfusion h5
      · intro h4
        cases d <;> exact TaskState.noConfusion h4
      · intro _ h4
        cases d <;> exact TaskState.noConfusion h4
      · intro _
        right
        exact flavour_isFinished d
    · intro h4
      exact cancelGates_finished_keep td₁ h4
    · intro _
      exact cancelGates_started_done td₁

/-- The gate updates and state change at the head of `__failed`. -/
theorem stepSafe_failCore (w : World) (t : TaskId) (e : Exc) (hw : WorldInv w)
    (td : TaskData) (hlk : lookupTask w t = some td)
    (hlive : td.state.isFinished = false) :
    StepSafe w (changeState (updateTask w t (failGates e)) t .failed) := by
  have hne : td.state ≠ TaskState.failed := by
    intro h4
    rw [h4] at hlive
    exact Bool.noConfusion hlive
  apply stepSafe_local w _ hw t
  · intro s hst
    exact lookup_update_changeState_ne w t (failGates e) _ s hst
  · rw [lookup_update_changeState_self w t (failGates e) _ td hlk (failGates_state e td) hne,
      hlk]
    rfl
  · intro td₁ td₂ h h₂
    rw [h] at hlk
    injection hlk with h5
    subst h5
    rw [lookup_update_changeState_self w t (failGates e) _ td₁ h (failGates_state e td₁) hne]
      at h₂
    injection h₂ with h3
    rw [← h3]
    refine ⟨?_, ?_, ?_⟩
    · unfold TaskInvP
      dsimp only
      refine ⟨fun _ => failGates_started_done e td₁, ?_, ?_, ?_, ?_,
        fun _ => failGates_started_done e td₁⟩
      · intro h4
        rcases h4 with h5 | h5 | h5 <;> exact TaskState.noConfusion h5
      · intro h4
        exact TaskState.noConfusion h4
      · intro _ h4
        exact TaskState.noConfusion h4
      · intro _
        right
        rfl
    · intro h4
      exact failGates_finished_keep e td₁ h4
    · intro _
      exact failGates_started_done e td₁

end Mau

namespace Mau

/-- `__cancel` preserves the invariant and the gate guarantees. -/
theorem stepSafe_privCancel (d : Bool) :
    ∀ (fuel : Nat) (w : World) (t : TaskId), WorldInv w →
      StepSafe w (privCancel fuel w t d) := by
  intro fuel
  induction fuel with
  | zero =>
    intro w t hw
    exact StepSafe.of_inv w hw
  | succ n ih =>
    intro w t hw
    cases h : lookupTask w t with
    | none =>
      simp only [privCancel, h]
      exact StepSafe.of_inv w hw
    | some td =>
      by_cases hf : td.state.isFinished = true
      · simp only [privCancel, h, hf, if_true]
        exact StepSafe.of_inv w hw
      · have hf2 : td.state.isFinished = false := by
          cases h3 : td.state.isFinished
          · rfl
          · exact absurd h3 hf
        simp only [privCancel, h, hf2, Bool.false_eq_true, if_false]
        have hc := stepSafe_cancelCore w t d hw td h hf2
        have hfold : ∀ (l : List TaskId) (w₁ : World), WorldInv w₁ →
            StepSafe w₁ (l.foldl (fun w c => privCancel n w c d) w₁) := by
          intro l
          induction l with
          | nil =>
            intro w₁ h₁
            exact StepSafe.of_inv w₁ h₁
          | cons hd tl ihl =>
            intro w₁ h₁
            rw [List.foldl_cons]
            have ha := ih w₁ hd h₁
            exact StepSafe.trans _ _ _ ha (ihl _ ha.1)
        exact StepSafe.trans _ _ _ hc (hfold td.children _ hc.1)

theorem stepSafe_privCancel_foldl (d : Bool) (fuel : Nat) :
    ∀ (l : List TaskId) (w : World), WorldInv w →
      StepSafe w (l.foldl (fun w c => privCancel fuel w c d) w) := by
  intro l
  induction l with
  | nil =>
    intro w hw
    exact StepSafe.of_inv w hw
  | cons hd tl ihl =>
    intro w hw
    rw [List.foldl_cons]
    have ha := stepSafe_privCancel d fuel w hd hw
    exact StepSafe.trans _ _ _ ha (ihl _ ha.1)

/-- `__failed` preserves the invariant and the gate guarantees. -/
theorem stepSafe_failed (fuel : Nat) (w : World) (t : TaskId) (exc : Option Exc)
    (hw : WorldInv w) : StepSafe w (failedFn fuel w t exc) := by
  cases h : lookupTask w t with
  | none =>
    simp only [failedFn, h]
    exact StepSafe.of_inv w hw
  | some td =>
    cases exc with
    | none =>
      simp only [failedFn, h]
      exact StepSafe.of_inv w hw
    | some e =>
      by_cases hf : td.state.isFinished = true
      · simp only [failedFn, h, hf, if_true]
        exact StepSafe.of_inv w hw
      · have hf2 : td.state.isFinished = false := by
          cases h3 : td.state.isFinished
          · rfl
          · exact absurd h3 hf
        simp only [failedFn, h, hf2, Bool.false_eq_true, if_false]
        have hc := stepSafe_failCore w t e hw td h hf2
        exact StepSafe.trans _ _ _ hc (stepSafe_privCancel_foldl true fuel td.children _ hc.1)

/-- `__check_start` preserves the invariant and the gate guarantees. -/
theorem stepSafe_checkStart (w : World) (t : TaskId) (lr : Bool) (hw : WorldInv w) :
    StepSafe w (checkStart w t lr) := by
  cases h : lookupTask w t with
  | none =>
    simp only [checkStart, h]
    exact StepSafe.of_inv w hw
  | some td =>
    by_cases hp : td.state = TaskState.pending
    · have hp2 : ¬ td.state ≠ TaskState.pending := fun h4 => h4 hp
      by_cases hdeps : td.pendingDependencies = []
      · have hdeps2 : ¬ td.pendingDependencies ≠ [] := fun h4 => h4 hdeps
        simp only [checkStart, h, if_neg hp2, if_neg hdeps2]
        have hlease : StepSafe w
            (if td.useLease ∧ ¬td.hasLease = true then
              updateTask w t fun td => { td with hasLease := true }
            else w) := by
          split
          · exact stepSafe_updateTask w t _ hw (fun td => rfl)
          · exact StepSafe.of_inv w hw
        split
        · exact hlease
        · refine StepSafe.trans _ _ _ hlease (stepSafe_setStarted _ t hlease.1 ?_)
          intro td₂ h₂
          revert h₂
          split
          · rw [lookup_updateTask, if_pos rfl, h]
            intro h₂
            injection h₂ with h3
            rw [← h3]
            exact hp
          · rw [h]
            intro h₂
            injection h₂ with h3
            rw [← h3]
            exact hp
      · have hdeps2 : td.pendingDependencies ≠ [] := hdeps
        simp only [checkStart, h, if_neg hp2, if_pos hdeps2]
        exact stepSafe_updateTask w t _ hw (fun td => rfl)
    · have hp2 : td.state ≠ TaskState.pending := hp
      simp only [checkStart, h, if_pos hp2]
      exact StepSafe.of_inv w hw

end Mau

namespace Mau

theorem cleanupDepStep_world (t : TaskId) (acc : World × List TaskId) (dep : TaskId) :
    (cleanupDepStep t acc dep).1
      = updateTask acc.1 dep
          (fun dd => { dd with reverseDependencies := dd.reverseDependencies.erase t }) := by
  simp only [cleanupDepStep]
  cases lookupTask (updateTask acc.1 dep
      (fun dd => { dd with reverseDependencies := dd.reverseDependencies.erase t })) dep with
  | none => rfl
  | some dd =>
    dsimp only
    split <;> rfl

theorem stepSafe_cleanupDepFold (t : TaskId) :
    ∀ (l : List TaskId) (acc : World × List TaskId), WorldInv acc.1 →
      StepSafe acc.1 (l.foldl (cleanupDepStep t) acc).1 := by
  intro l
  induction l with
  | nil =>
    intro acc h
    exact StepSafe.of_inv acc.1 h
  | cons hd tl ihl =>
    intro acc h
    rw [List.foldl_cons]
    have h1 : StepSafe acc.1 (cleanupDepStep t acc hd).1 := by
      rw [cleanupDepStep_world]
      exact stepSafe_updateTask acc.1 hd _ h (fun td => rfl)
    exact StepSafe.trans _ _ _ h1 (ihl (cleanupDepStep t acc hd) h1.1)

theorem lookup_update_core (w : World) (t : TaskId) (f : TaskData → TaskData)
    (hf : ∀ td, invCore (f td) = invCore td) (s : TaskId) :
    (lookupTask (updateTask w t f) s).map invCore = (lookupTask w s).map invCore := by
  rw [lookup_updateTask]
  by_cases hst : s = t
  · rw [if_pos hst]
    cases h : lookupTask w s with
    | none => rfl
    | some td => simp [hf td]
  · rw [if_neg hst]

theorem cleanupDepFold_core (t : TaskId) :
    ∀ (l : List TaskId) (acc : World × List TaskId) (s : TaskId),
      (lookupTask (l.foldl (cleanupDepStep t) acc).1 s).map invCore
        = (lookupTask acc.1 s).map invCore := by
  intro l
  induction l with
  | nil => intro acc s; rfl
  | cons hd tl ihl =>
    intro acc s
    rw [List.foldl_cons, ihl, cleanupDepStep_world]
    apply lookup_update_core
    intro td
    rfl

theorem cleanup_noop_of_cleaned (w : World) (t : TaskId) (td : TaskData)
    (h : lookupTask w t = some td) (hcu : td.cleanedUp = true) : cleanup w t = w := by
  simp [cleanup, h, hcu]

/-- After `__cleanup`, the task keeps its state, gates and drain counter,
and is marked cleaned up. -/
theorem cleanup_self_core (w : World) (t : TaskId) (td : TaskData)
    (hlk : lookupTask w t = some td) (hcu : td.cleanedUp = false) :
    (lookupTask (cleanup w t) t).map invCore
      = some (td.state, td.started, td.finished, true, td.waitBackgroundTasks) := by
  have e1 : (lookupTask (cleanup w t) t).map invCore
      = (lookupTask ((td.pendingDependencies.foldl (cleanupDepStep t)
          (updateTask (updateTask w t fun td => { td with cleanedUp := true }) t
            (fun td => { td with pendingChildren := [] }), [])).1) t).map invCore := by
    simp only [cleanup, hlk]
    rw [if_neg (by rw [hcu]; exact Bool.noConfusion)]
    refine Eq.trans ?_ rfl
    apply lookup_update_core
    intro td
    rfl
  have e2 := cleanupDepFold_core t td.pendingDependencies
    (updateTask (updateTask w t fun td => { td with cleanedUp := true }) t
      (fun td => { td with pendingChildren := [] }), []) t
  have e3 : (lookupTask (updateTask
        (updateTask w t fun td => { td with cleanedUp := true }) t
        (fun td => { td with pendingChildren := [] })) t).map invCore
      = (lookupTask (updateTask w t fun td => { td with cleanedUp := true }) t).map invCore := by
    apply lookup_update_core
    intro td
    rfl
  have e4 : (lookupTask (updateTask w t fun td => { td with cleanedUp := true }) t).map invCore
      = some (td.state, td.started, td.finished, true, td.waitBackgroundTasks) := by
    rw [lookup_updateTask, if_pos rfl, hlk]
    rfl
  exact ((e1.trans e2).trans e3).trans e4

theorem stepSafe_cleanup (w : World) (t : TaskId) (hw : WorldInv w)
    (hok : ∀ td, lookupTask w t = some td →
      td.state.isFinished = true ∨ (td.state = .waiting ∧ td.waitBackgroundTasks = 0)) :
    StepSafe w (cleanup w t) := by
  cases h : lookupTask w t with
  | none =>
    simp only [cleanup, h]
    exact StepSafe.of_inv w hw
  | some td =>
    by_cases hcu : td.cleanedUp = true
    · rw [cleanup_noop_of_cleaned w t td h hcu]
      exact StepSafe.of_inv w hw
    · simp only [cleanup, h]
      rw [if_neg hcu]
      have s1 := stepSafe_setCleanedUp w t hw hok
      refine StepSafe.trans _ _ _ s1 ?_
      have s2 := stepSafe_updateTask _ t
        (fun td => ({ td with pendingChildren := [] } : TaskData)) s1.1 (fun td => rfl)
      refine StepSafe.trans _ _ _ s2 ?_
      have s3 := stepSafe_cleanupDepFold t td.pendingDependencies (_, []) s2.1
      refine StepSafe.trans _ _ _ s3 ?_
      have s4 := stepSafe_of_lookup_eq _
        { (td.pendingDependencies.foldl (cleanupDepStep t)
            (updateTask (updateTask w t fun td => { td with cleanedUp := true }) t
              fun td => { td with pendingChildren := [] }, [])).1 with
          deferred := (td.pendingDependencies.foldl (cleanupDepStep t)
            (updateTask (updateTask w t fun td => { td with cleanedUp := true }) t
              fun td => { td with pendingChildren := [] }, [])).1.deferred
            ++ (td.pendingDependencies.foldl (cleanupDepStep t)
              (updateTask (updateTask w t fun td => { td with cleanedUp := true }) t
                fun td => { td with pendingChildren := [] }, [])).2.map
              (fun _ => Deferred.cancelDiscard (td.pendingDependencies.getLast?.getD 0)) }
        s3.1 (fun s => rfl)
      refine StepSafe.trans _ _ _ s4 ?_
      exact stepSafe_updateTask _ t
        (fun td => ({ td with pendingDependencies := [] } : TaskData)) s4.1 (fun td => rfl)

/-- Resolving the finished-gate at the end of `__check_finish`. -/
theorem stepSafe_setFinished (w : World) (t : TaskId) (hw : WorldInv w)
    (hcond : ∀ td, lookupTask w t = some td →
      td.state = .waiting ∧ td.cleanedUp = true ∧ td.waitBackgroundTasks = 0
        ∧ td.finished.done = false ∧ td.started.done = true) :
    StepSafe w (updateTask w t fun td => { td with finished := .result }) := by
  apply stepSafe_local w _ hw t
  · intro s hst
    rw [lookup_updateTask, if_neg hst]
  · rw [lookup_updateTask, if_pos rfl]
    cases lookupTask w t <;> rfl
  · intro td td₂ h h₂
    rw [lookup_updateTask, if_pos rfl, h] at h₂
    injection h₂ with h3
    rw [← h3]
    obtain ⟨hc1, hc2, hc3, hc4, hc5⟩ := hcond td h
    refine ⟨?_, ?_, fun h4 => h4⟩
    · unfold TaskInvP
      dsimp only
      refine ⟨fun _ => hc5, ?_, fun _ _ => hc2, fun _ _ => hc3, fun _ => Or.inl hc1,
        fun _ => hc5⟩
      intro h4
      rcases h4 with h5 | h5 | h5 <;>
        (rw [hc1] at h5; exact TaskState.noConfusion h5)
    · intro h4
      rw [hc4] at h4
      exact Bool.noConfusion h4

/-- `__check_finish` preserves the invariant and the gate guarantees given
that a task still `waiting` has an unresolved finished-gate. -/
theorem stepSafe_checkFinish (w : World) (t : TaskId) (hw : WorldInv w)
    (hfp : ∀ td, lookupTask w t = some td → td.state = .waiting →
      td.finished.done = false) :
    StepSafe w (checkFinish w t) := by
  cases h : lookupTask w t with
  | none =>
    simp only [checkFinish, h]
    exact StepSafe.of_inv w hw
  | some td =>
    by_cases hst : td.state = TaskState.waiting
    · have hst2 : ¬ td.state ≠ TaskState.waiting := fun h4 => h4 hst
      by_cases hpc : td.pendingChildren = []
      · have hpc2 : ¬ td.pendingChildren ≠ [] := fun h4 => h4 hpc
        by_cases hbg : td.waitBackgroundTasks = 0
        · have hbg2 : ¬ td.waitBackgroundTasks ≠ 0 := fun h4 => h4 hbg
          simp only [checkFinish, h, if_neg hst2, if_neg hpc2, if_neg hbg2]
          have hok : ∀ td₁, lookupTask w t = some td₁ →
              td₁.state.isFinished = true
                ∨ (td₁.state = .waiting ∧ td₁.waitBackgroundTasks = 0) := by
            intro td₁ h₁
            rw [h] at h₁
            injection h₁ with h₁
            rw [← h₁]
            exact Or.inr ⟨hst, hbg⟩
          have s1 := stepSafe_cleanup w t hw hok
          refine StepSafe.trans _ _ _ s1 ?_
          refine stepSafe_setFinished _ t s1.1 ?_
          intro td₂ h₂
          by_cases hcu : td.cleanedUp = true
          · rw [cleanup_noop_of_cleaned w t td h hcu, h] at h₂
            injection h₂ with h₂
            rw [← h₂]
            exact ⟨hst, hcu, hbg, hfp td h hst, (hw t td h).2.2.2.2.2 (Or.inr (Or.inl hst))⟩
          · have hcu2 : td.cleanedUp = false := by
              cases h3 : td.cleanedUp
              · rfl
              · exact absurd h3 hcu
            have hcore := cleanup_self_core w t td h hcu2
            rw [h₂] at hcore
            have hcore2 : invCore td₂
                = (td.state, td.started, td.finished, true, td.waitBackgroundTasks) := by
              injection hcore
            unfold invCore at hcore2
            rw [Prod.ext_iff, Prod.ext_iff, Prod.ext_iff, Prod.ext_iff] at hcore2
            obtain ⟨e1, e2, e3, e4, e5⟩ := hcore2
            dsimp only at e1 e2 e3 e4 e5
            rw [e1, e3, e4, e5, e2]
            exact ⟨hst, rfl, hbg, hfp td h hst,
              (hw t td h).2.2.2.2.2 (Or.inr (Or.inl hst))⟩
        · have hbg2 : td.waitBackgroundTasks ≠ 0 := hbg
          simp only [checkFinish, h, if_neg hst2, if_neg hpc2, if_pos hbg2]
          exact StepSafe.of_inv w hw
      · have hpc2 : td.pendingChildren ≠ [] := hpc
        simp only [checkFinish, h, if_neg hst2, if_pos hpc2]
        exact StepSafe.of_inv w hw
    · have hst2 : td.state ≠ TaskState.waiting := hst
      simp only [checkFinish, h, if_pos hst2]
      exact StepSafe.of_inv w hw

end Mau

namespace Mau

/-- `background` preserves the invariant when invoked before cleanup. -/
theorem stepSafe_background (w : World) (t : TaskId) (wait errh : Bool) (hw : WorldInv w)
    (hcu : ∀ td, lookupTask w t = some td → td.cleanedUp = false) :
    StepSafe w (background w t wait errh) := by
  cases h : lookupTask w t with
  | none =>
    simp only [background, h]
    exact StepSafe.of_inv w hw
  | some td =>
    simp only [background, h]
    split
    · exact StepSafe.of_inv w hw
    · split
      · exact StepSafe.of_inv w hw
      · split
        · refine stepSafe_waitBgUpdate w t (fun n => n + 1) hw ?_
          intro td₁ h₁ hcu₁ _
          rw [hcu td₁ h₁] at hcu₁
          exact Bool.noConfusion hcu₁
        · exact stepSafe_updateTask w t _ hw (fun td => rfl)

/-- The `finally` clause of a background wrapper preserves the invariant;
for a must-drain handle the wrapper is still counted. -/
theorem stepSafe_bgFinish (w : World) (t : TaskId) (wait : Bool) (hw : WorldInv w)
    (hwait : wait = true → ∀ td, lookupTask w t = some td →
      0 < td.waitBackgroundTasks) :
    StepSafe w (bgFinish w t wait) := by
  cases h : lookupTask w t with
  | none =>
    simp only [bgFinish, h]
    exact StepSafe.of_inv w hw
  | some td =>
    simp only [bgFinish, h]
    split
    case isTrue hw2 =>
      have s1 : StepSafe w (updateTask w t fun td =>
          { td with waitBackgroundTasks := td.waitBackgroundTasks - 1 }) := by
        refine stepSafe_waitBgUpdate w t (fun n => n - 1) hw ?_
        intro td₁ h₁ hcu₁ hst₁
        have h4 := (hw t td₁ h₁).2.2.2.1 hcu₁ hst₁
        rw [h4]
      refine StepSafe.trans _ _ _ s1 ?_
      refine stepSafe_checkFinish _ t s1.1 ?_
      intro td₂ h₂
      rw [lookup_updateTask, if_pos rfl, h] at h₂
      injection h₂ with h₂
      rw [← h₂]
      dsimp only
      intro hst₂
      by_cases hfd : td.finished.done = true
      · have hcu₂ := (hw t td h).2.2.1 hst₂ hfd
        have hbg := (hw t td h).2.2.2.1 hcu₂ hst₂
        have := hwait hw2 td h
        rw [hbg] at this
        exact absurd this (by omega)
      · cases h5 : td.finished.done
        · rfl
        · exact absurd h5 hfd
    case isFalse =>
      exact stepSafe_updateTask w t _ hw (fun td => rfl)

/-- `__propagate_failure` preserves the invariant when invoked before
cleanup (its call sites are the callbacks cleanup detaches and the driver). -/
theorem stepSafe_propagate (fuel : Nat) (w : World) (t source : TaskId)
    (excArg : Option Exc) (wrap : WrapKind) (hw : WorldInv w)
    (hcu : ∀ td, lookupTask w t = some td → td.cleanedUp = false) :
    StepSafe w (propagateFailure fuel w t source excArg wrap) := by
  cases h : lookupTask w t with
  | none =>
    simp only [propagateFailure, h]
    exact StepSafe.of_inv w hw
  | some td =>
    simp only [propagateFailure, h]
    split
    · exact StepSafe.of_inv w hw
    · exact stepSafe_background w t true true hw hcu
    · exact stepSafe_of_lookup_eq w _ hw (fun s => rfl)
    · exact stepSafe_failed fuel w t _ hw

/-- The driver announcing its initial state only appends to the trace. -/
theorem stepSafe_driverInit (w : World) (t : TaskId) (hw : WorldInv w) :
    StepSafe w (driverInit w t) := by
  cases h : lookupTask w t with
  | none =>
    simp only [driverInit, h]
    exact StepSafe.of_inv w hw
  | some td =>
    simp only [driverInit, h]
    exact stepSafe_of_lookup_eq w _ hw (fun s => rfl)

/-- The driver moving a prepared task to `pending`. -/
theorem stepSafe_driverPrepared (w : World) (t : TaskId) (lr : Bool) (td : TaskData)
    (hw : WorldInv w) (hlk : lookupTask w t = some td) (hst : td.state = .preparing) :
    StepSafe w (driverPrepared w t lr) := by
  have s1 : StepSafe w (changeState w t .pending) := by
    refine stepSafe_changeState w t .pending hw ?_
    intro td₁ h₁ _
    rw [hlk] at h₁
    injection h₁ with h₁
    subst h₁
    have hinv := hw t td hlk
    unfold TaskInvP at hinv
    obtain ⟨c1, c2, c3, c4, c5, c6⟩ := hinv
    unfold TaskInvP
    dsimp only
    refine ⟨?_, fun _ => c2 (Or.inl hst), ?_, ?_, ?_, ?_⟩
    · intro h4
      rw [c2 (Or.inl hst)] at h4
      exact Bool.noConfusion h4
    · intro h4
      exact TaskState.noConfusion h4
    · intro _ h4
      exact TaskState.noConfusion h4
    · intro h4
      rcases c5 h4 with h5 | h5
      · rw [hst] at h5
        exact TaskState.noConfusion h5
      · rw [hst] at h5
        exact Bool.noConfusion h5
    · intro h4
      rcases h4 with h5 | h5 | h5 <;> exact TaskState.noConfusion h5
  exact StepSafe.trans _ _ _ s1 (stepSafe_checkStart _ t lr s1.1)

/-- The driver moving a started task to `running`. -/
theorem stepSafe_driverStarted (w : World) (t : TaskId) (td : TaskData)
    (hw : WorldInv w) (hlk : lookupTask w t = some td) (hst : td.state = .pending)
    (hg : td.started = .result) :
    StepSafe w (driverStarted w t) := by
  refine stepSafe_changeState w t .running hw ?_
  intro td₁ h₁ _
  rw [hlk] at h₁
  injection h₁ with h₁
  subst h₁
  have hinv := hw t td hlk
  unfold TaskInvP at hinv
  obtain ⟨c1, c2, c3, c4, c5, c6⟩ := hinv
  unfold TaskInvP
  dsimp only
  refine ⟨?_, fun _ => c2 (Or.inr (Or.inl hst)), ?_, ?_, ?_, ?_⟩
  · intro h4
    rw [c2 (Or.inr (Or.inl hst))] at h4
    exact Bool.noConfusion h4
  · intro h4
    exact TaskState.noConfusion h4
  · intro _ h4
    exact TaskState.noConfusion h4
  · intro h4
    rcases c5 h4 with h5 | h5
    · rw [hst] at h5
      exact TaskState.noConfusion h5
    · rw [hst] at h5
      exact Bool.noConfusion h5
  · intro _
    rw [hg]
    rfl

/-- The driver moving a task whose body returned to `waiting`. -/
theorem stepSafe_driverRan (w : World) (t : TaskId) (td : TaskData)
    (hw : WorldInv w) (hlk : lookupTask w t = some td) (hst : td.state = .running) :
    StepSafe w (driverRan w t) := by
  have s1 : StepSafe w (updateTask w t fun td => { td with hasLease := false }) :=
    stepSafe_updateTask w t _ hw (fun td => rfl)
  refine StepSafe.trans _ _ _ s1 ?_
  have hlk₁ : lookupTask (updateTask w t fun td => { td with hasLease := false }) t
      = some { td with hasLease := false } := by
    rw [lookup_updateTask, if_pos rfl, hlk]
    rfl
  have s2 : StepSafe (updateTask w t fun td => { td with hasLease := false })
      (changeState (updateTask w t fun td => { td with hasLease := false }) t .waiting) := by
    refine stepSafe_changeState _ t .waiting s1.1 ?_
    intro td₁ h₁ _
    rw [hlk₁] at h₁
    injection h₁ with h₁
    rw [← h₁]
    have hinv := hw t td hlk
    unfold TaskInvP at hinv
    obtain ⟨c1, c2, c3, c4, c5, c6⟩ := hinv
    unfold TaskInvP
    dsimp only
    refine ⟨?_, ?_, ?_, ?_, ?_, fun _ => c6 (Or.inl hst)⟩
    · intro h4
      rw [c2 (Or.inr (Or.inr hst))] at h4
      exact Bool.noConfusion h4
    · intro h4
      rcases h4 with h5 | h5 | h5 <;> exact TaskState.noConfusion h5
    · intro _ h4
      rw [c2 (Or.inr (Or.inr hst))] at h4
      exact Bool.noConfusion h4
    · intro h4
      rcases c5 h4 with h5 | h5
      · rw [hst] at h5
        exact TaskState.noConfusion h5
      · rw [hst] at h5
        exact Bool.noConfusion h5
    · intro h4
      rcases c5 h4 with h5 | h5
      · rw [hst] at h5
        exact TaskState.noConfusion h5
      · rw [hst] at h5
        exact Bool.noConfusion h5
  refine StepSafe.trans _ _ _ s2 ?_
  refine stepSafe_checkFinish _ t s2.1 ?_
  intro td₂ h₂ hst₂
  have hlk₂ := (lookup_update_changeState_self w t
    (fun td => { td with hasLease := false }) .waiting td hlk rfl
    (by rw [hst]; exact fun h4 => TaskState.noConfusion h4))
  rw [hlk₂] at h₂
  injection h₂ with h₂
  rw [← h₂]
  exact (hw t td hlk).2.1 (Or.inr (Or.inr hst))

/-- The driver moving a finished task to `done`. -/
theorem stepSafe_driverFinished (w : World) (t : TaskId) (td : TaskData)
    (hw : WorldInv w) (hlk : lookupTask w t = some td) (hst : td.state = .waiting)
    (_hg : td.finished = .result) :
    StepSafe w (driverFinished w t) := by
  refine stepSafe_changeState w t .done hw ?_
  intro td₁ h₁ _
  rw [hlk] at h₁
  injection h₁ with h₁
  subst h₁
  have hinv := hw t td hlk
  unfold TaskInvP at hinv
  obtain ⟨c1, c2, c3, c4, c5, c6⟩ := hinv
  unfold TaskInvP
  dsimp only
  refine ⟨fun _ => c6 (Or.inr (Or.inl hst)), ?_, ?_, ?_, fun _ => Or.inr rfl,
    fun _ => c6 (Or.inr (Or.inl hst))⟩
  · intro h4
    rcases h4 with h5 | h5 | h5 <;> exact TaskState.noConfusion h5
  · intro h4
    exact TaskState.noConfusion h4
  · intro _ h4
    exact TaskState.noConfusion h4

/-- Every scheduler step preserves the invariant, never re-resolves a
resolved finished-gate, resolves the finished-gate only with the
started-gate resolved, and keeps resolved started-gates resolved. -/
theorem step_safety (w w₂ : World) (hw : WorldInv w) (hs : Step w w₂) :
    StepSafe w w₂ := by
  cases hs with
  | driverInit w t => exact stepSafe_driverInit w t hw
  | driverPrepared w t lr td hlk h => exact stepSafe_driverPrepared w t lr td hw hlk h
  | driverStarted w t td hlk h hg => exact stepSafe_driverStarted w t td hw hlk h hg
  | driverRan w t td hlk h => exact stepSafe_driverRan w t td hw hlk h
  | driverFinished w t td hlk h hg => exact stepSafe_driverFinished w t td hw hlk h hg
  | checkStart w t lr => exact stepSafe_checkStart w t lr hw
  | checkFinish w t td hlk h =>
    refine stepSafe_checkFinish w t hw ?_
    intro td₁ h₁ hst₁
    rw [hlk] at h₁
    injection h₁ with h₁
    subst h₁
    by_cases hfd : td.finished.done = true
    · have h6 := (hw t td hlk).2.2.1 hst₁ hfd
      rw [h] at h6
      exact Bool.noConfusion h6
    · cases h5 : td.finished.done
      · rfl
      · exact absurd h5 hfd
  | cleanup w t td hlk h =>
    refine stepSafe_cleanup w t hw ?_
    intro td₁ h₁
    rw [hlk] at h₁
    injection h₁ with h₁
    subst h₁
    exact Or.inl h
  | failed fuel w t exc => exact stepSafe_failed fuel w t exc hw
  | cancel fuel w t cur =>
    cases cur with
    | none => exact StepSafe.of_inv w hw
    | some c =>
      have s1 : StepSafe w (updateTask w t fun td => { td with cancelledBy := some c }) :=
        stepSafe_updateTask w t _ hw (fun td => rfl)
      exact StepSafe.trans _ _ _ s1 (stepSafe_privCancel false fuel _ t s1.1)
  | privCancel fuel w t d => exact stepSafe_privCancel d fuel w t hw
  | discardVia fuel w t source =>
    cases h : lookupTask w source with
    | none =>
      simp only [Mau.discardVia, h]
      exact StepSafe.of_inv w hw
    | some sd =>
      simp only [Mau.discardVia, h]
      split
      · exact StepSafe.of_inv w hw
      · exact stepSafe_privCancel true fuel w t hw
  | background w t wait errh td hlk h =>
    refine stepSafe_background w t wait errh hw ?_
    intro td₁ h₁
    rw [hlk] at h₁
    injection h₁ with h₁
    subst h₁
    exact h
  | bgFinish w t wait td hlk h =>
    refine stepSafe_bgFinish w t wait hw ?_
    intro hw2 td₁ h₁
    rw [hlk] at h₁
    injection h₁ with h₁
    subst h₁
    exact h hw2
  | propagate fuel w t source excArg wrap td hlk h =>
    refine stepSafe_propagate fuel w t source excArg wrap hw ?_
    intro td₁ h₁
    rw [hlk] at h₁
    injection h₁ with h₁
    subst h₁
    exact h
  | popDependency w t dep => exact stepSafe_updateTask w t _ hw (fun td => rfl)
  | popChild w t child => exact stepSafe_updateTask w t _ hw (fun td => rfl)
  | runDeferred fuel w =>
    cases hd : w.deferred with
    | nil =>
      simp only [Mau.runDeferred, hd]
      exact StepSafe.of_inv w hw
    | cons d rest =>
      simp only [Mau.runDeferred, hd]
      have s1 : StepSafe w { w with deferred := rest } :=
        stepSafe_of_lookup_eq w _ hw (fun s => rfl)
      cases d with
      | discardVia t s =>
        refine StepSafe.trans _ _ _ s1 ?_
        cases h : lookupTask { w with deferred := rest } s with
        | none =>
          simp only [Mau.discardVia, h]
          exact StepSafe.of_inv _ s1.1
        | some sd =>
          simp only [Mau.discardVia, h]
          split
          · exact StepSafe.of_inv _ s1.1
          · exact stepSafe_privCancel true fuel _ t s1.1
      | cancelDiscard t =>
        exact StepSafe.trans _ _ _ s1 (stepSafe_privCancel true fuel _ t s1.1)

end Mau

namespace Mau

/-- C1: in any world satisfying the task-loop invariant, a scheduler step —
in particular normal completion via `__check_finish`, failure via
`__failed`, or cancellation via `__cancel` — never resolves a finished-gate
that is already resolved (each finished-gate resolves at most once, hence
exactly once on any run that resolves it), and whenever a step newly
resolves a finished-gate, the task's started-gate is resolved (with success
or an abort): `__failed` and `__cancel` resolve the started-gate first, and
`__check_finish` fires only past `waiting`, where the started-gate is
already resolved.  The invariant itself is preserved by every step, so both
guarantees hold along every run from a well-formed initial world. -/
theorem finished_gate_once_after_started (w w₂ : World) (hw : WorldInv w)
    (hs : Step w w₂) :
    WorldInv w₂
    ∧ (∀ t td td₂, lookupTask w t = some td → lookupTask w₂ t = some td₂ →
        td.finished.done = true → td₂.finished = td.finished)
    ∧ (∀ t td td₂, lookupTask w t = some td → lookupTask w₂ t = some td₂ →
        td.finished.done = false → td₂.finished.done = true →
        td₂.started.done = true) := by
  have h := step_safety w w₂ hw hs
  exact ⟨h.1, h.2.1, h.2.2.1⟩

/-- Witness for the C1 theorem: a freshly constructed root task satisfies
the invariant, and the `__check_start` step out of it keeps every
finished-gate guarantee. -/
theorem finished_gate_once_after_started_witness :
    WorldInv (checkStart rootOnlyWorld 0 true)
    ∧ (∀ t td td₂, lookupTask rootOnlyWorld t = some td →
        lookupTask (checkStart rootOnlyWorld 0 true) t = some td₂ →
        td.finished.done = true → td₂.finished = td.finished) := by
  have hinv : WorldInv rootOnlyWorld := WorldInv_of_all _ (by decide)
  have h := finished_gate_once_after_started rootOnlyWorld _ hinv
    (Step.checkStart rootOnlyWorld 0 true)
  exact ⟨h.1, h.2.1⟩

end Mau
